import Mathlib

/-!
Verification of the Web2PWA folder-to-PWA converter (`src/app.js`).

The development shallowly embeds the string-generation and folder-ingestion
logic of the `PWAConverter` class: configuration and file records become
structures, template literals become explicit segment lists (literal text
interleaved with interpolated fields), and the DOM/async plumbing is dropped
while the data flow (state updates, thrown errors, generated text) is kept.

The first part is a small reusable theory of substring-occurrence counting
over `List Char`, used to state "the generated service worker contains
exactly one fetch-handling block" and similar properties.
-/

namespace Web2PWA

/-- Number of positions of `s` at which the pattern `p` occurs (as a
contiguous sublist starting at that position). -/
def occL (p : List Char) : List Char → Nat
  | [] => 0
  | c :: t => (if p.isPrefixOf (c :: t) then 1 else 0) + occL p t

/-- Number of occurrences of `p` in `a ++ b` that start inside `a` but do
not fit inside `a` (straddling occurrences). -/
def crossL (p : List Char) : List Char → List Char → Nat
  | [], _ => 0
  | c :: a, b =>
    (if (c :: a).length < p.length ∧ p.isPrefixOf ((c :: a) ++ b) then 1 else 0) +
      crossL p a b

theorem isPrefixOf_length_le {p s : List Char} (h : p.isPrefixOf s = true) :
    p.length ≤ s.length := by
  have h' : p <+: s := List.isPrefixOf_iff_prefix.mp h
  exact h'.length_le

theorem isPrefixOf_append_left {p u : List Char} (v : List Char)
    (h : p.length ≤ u.length) :
    p.isPrefixOf (u ++ v) = p.isPrefixOf u := by
  by_cases hu : p.isPrefixOf u = true
  · have h' : p <+: u := List.isPrefixOf_iff_prefix.mp hu
    have : p <+: u ++ v := h'.trans (List.prefix_append u v)
    rw [hu, List.isPrefixOf_iff_prefix.mpr this]
  · by_cases huv : p.isPrefixOf (u ++ v) = true
    · exfalso
      have h' : p <+: u ++ v := List.isPrefixOf_iff_prefix.mp huv
      have hp : p = (u ++ v).take p.length := List.prefix_iff_eq_take.mp h'
      have ht : (u ++ v).take p.length = u.take p.length :=
        List.take_append_of_le_length h
      exact hu (List.isPrefixOf_iff_prefix.mpr
        (List.prefix_iff_eq_take.mpr (hp.trans ht)))
    · simp only [Bool.not_eq_true] at hu huv
      rw [hu, huv]

/-- If `p` occurs as a prefix of `s ++ b` but `s` is not longer than `p`,
then `s` itself is a prefix of `p`. -/
theorem isPrefixOf_of_short {p s b : List Char}
    (h1 : p.isPrefixOf (s ++ b) = true) (h2 : s.length ≤ p.length) :
    s.isPrefixOf p = true := by
  have h' : p <+: s ++ b := List.isPrefixOf_iff_prefix.mp h1
  have hp : p = (s ++ b).take p.length := List.prefix_iff_eq_take.mp h'
  apply List.isPrefixOf_iff_prefix.mpr
  apply List.prefix_iff_eq_take.mpr
  rw [hp, List.take_take, Nat.min_eq_left h2]
  exact (List.take_left s b).symm

/-- If `p` occurs as a prefix of `s ++ b` and `s` is not longer than `p`,
the remainder `p.drop s.length` is a prefix of `b`. -/
theorem drop_isPrefixOf_of_append {p s b : List Char}
    (h1 : p.isPrefixOf (s ++ b) = true) (h2 : s.length ≤ p.length) :
    (p.drop s.length).isPrefixOf b = true := by
  have hs : s.isPrefixOf p = true := isPrefixOf_of_short h1 h2
  have hsp : s <+: p := List.isPrefixOf_iff_prefix.mp hs
  have htake : p.take s.length = s := (List.prefix_iff_eq_take.mp hsp).symm
  have hsplit : s ++ p.drop s.length = p := by
    conv_rhs => rw [← List.take_append_drop s.length p]
    rw [htake]
  have h' : p <+: s ++ b := List.isPrefixOf_iff_prefix.mp h1
  rw [← hsplit] at h'
  apply List.isPrefixOf_iff_prefix.mpr
  exact (List.prefix_append_right_inj s).mp h'

/-- Splitting occurrence counts across an append: occurrences lie in `a`,
in `b`, or straddle the boundary. -/
theorem occL_append (p : List Char) (a b : List Char) :
    occL p (a ++ b) = occL p a + occL p b + crossL p a b := by
  induction a with
  | nil => simp [occL, crossL]
  | cons c a ih =>
    have hstep : occL p ((c :: a) ++ b) =
        (if p.isPrefixOf ((c :: a) ++ b) then 1 else 0) + occL p (a ++ b) := rfl
    have hocc : occL p (c :: a) =
        (if p.isPrefixOf (c :: a) then 1 else 0) + occL p a := rfl
    have hcrosseq : crossL p (c :: a) b =
        (if (c :: a).length < p.length ∧ p.isPrefixOf ((c :: a) ++ b)
          then 1 else 0) + crossL p a b := rfl
    rw [hstep, ih, hocc, hcrosseq]
    by_cases hlen : (c :: a).length < p.length
    · have hpfx : ¬ (p.isPrefixOf (c :: a) = true) := by
        intro hne
        exact absurd (isPrefixOf_length_le hne) (by omega)
      rw [if_neg hpfx]
      by_cases hm : p.isPrefixOf ((c :: a) ++ b) = true
      · rw [if_pos hm, if_pos ⟨hlen, hm⟩]
        omega
      · rw [if_neg hm, if_neg (by rintro ⟨-, h2⟩; exact hm h2)]
        omega
    · push_neg at hlen
      have heq : p.isPrefixOf ((c :: a) ++ b) = p.isPrefixOf (c :: a) :=
        isPrefixOf_append_left b hlen
      rw [heq, if_neg (by rintro ⟨h1, -⟩; omega : ¬ ((c :: a).length <
        p.length ∧ p.isPrefixOf (c :: a) = true))]
      omega

theorem crossL_nil_right (p a : List Char) : crossL p a [] = 0 := by
  induction a with
  | nil => rfl
  | cons c a ih =>
    have hstep : crossL p (c :: a) [] =
        (if (c :: a).length < p.length ∧ p.isPrefixOf ((c :: a) ++ [])
          then 1 else 0) + crossL p a [] := rfl
    have hnc : ¬ ((c :: a).length < p.length ∧
        p.isPrefixOf ((c :: a) ++ []) = true) := by
      rintro ⟨h1, h2⟩
      rw [List.append_nil] at h2
      exact absurd (isPrefixOf_length_le h2) (by omega)
    rw [hstep, ih, if_neg hnc]

/-- A straddling occurrence must begin with the head of the pattern inside
the left list, so there are none if the pattern's head never occurs there. -/
theorem crossL_eq_zero_left {ph : Char} {pt a : List Char} (b : List Char)
    (h : ph ∉ a) : crossL (ph :: pt) a b = 0 := by
  induction a with
  | nil => rfl
  | cons c a ih =>
    have hc : ph ≠ c := fun he => h (he ▸ List.mem_cons_self c a)
    have ha : ph ∉ a := fun hm => h (List.mem_cons_of_mem c hm)
    have hstep : crossL (ph :: pt) (c :: a) b =
        (if (c :: a).length < (ph :: pt).length ∧
          (ph :: pt).isPrefixOf ((c :: a) ++ b) then 1 else 0) +
          crossL (ph :: pt) a b := rfl
    have hnc : ¬ ((c :: a).length < (ph :: pt).length ∧
        (ph :: pt).isPrefixOf ((c :: a) ++ b) = true) := by
      rintro ⟨-, h2⟩
      have h3 : (ph :: pt) <+: c :: (a ++ b) := List.isPrefixOf_iff_prefix.mp h2
      exact hc (List.cons_prefix_cons.mp h3).1
    rw [hstep, ih ha, if_neg hnc]

/-- No occurrence of a pattern lacking its head character. -/
theorem occL_eq_zero_head {ph : Char} {pt s : List Char} (h : ph ∉ s) :
    occL (ph :: pt) s = 0 := by
  induction s with
  | nil => rfl
  | cons c s ih =>
    have hc : ph ≠ c := fun he => h (he ▸ List.mem_cons_self c s)
    have hs : ph ∉ s := fun hm => h (List.mem_cons_of_mem c hm)
    have hstep : occL (ph :: pt) (c :: s) =
        (if (ph :: pt).isPrefixOf (c :: s) then 1 else 0) +
          occL (ph :: pt) s := rfl
    have hnc : ¬ ((ph :: pt).isPrefixOf (c :: s) = true) := by
      intro h2
      have h3 : (ph :: pt) <+: c :: s := List.isPrefixOf_iff_prefix.mp h2
      exact hc (List.cons_prefix_cons.mp h3).1
    rw [hstep, ih hs, if_neg hnc]

theorem occL_eq_zero_short {p s : List Char} (h : s.length < p.length) :
    occL p s = 0 := by
  induction s with
  | nil => rfl
  | cons c s ih =>
    have hpfx : ¬ (p.isPrefixOf (c :: s) = true) := by
      intro hne
      exact absurd (isPrefixOf_length_le hne) (by omega)
    have hstep : occL p (c :: s) =
        (if p.isPrefixOf (c :: s) then 1 else 0) + occL p s := rfl
    rw [hstep, ih (by simp only [List.length_cons] at h; omega), if_neg hpfx]

/-- A straddling occurrence must continue into `b` with some proper tail of
the pattern; if no tail of `p` is a prefix of `b`, there are none. -/
theorem crossL_eq_zero_right {p a b : List Char}
    (h : ∀ k, 0 < k → k < p.length → (p.drop k).isPrefixOf b = false) :
    crossL p a b = 0 := by
  induction a with
  | nil => rfl
  | cons c a ih =>
    have hstep : crossL p (c :: a) b =
        (if (c :: a).length < p.length ∧ p.isPrefixOf ((c :: a) ++ b)
          then 1 else 0) + crossL p a b := rfl
    have hnc : ¬ ((c :: a).length < p.length ∧
        p.isPrefixOf ((c :: a) ++ b) = true) := by
      rintro ⟨h1, h2⟩
      have hd : (p.drop (c :: a).length).isPrefixOf b = true :=
        drop_isPrefixOf_of_append h2 (le_of_lt h1)
      have hf := h (c :: a).length (by simp) h1
      rw [hf] at hd
      exact Bool.false_ne_true hd
    rw [hstep, ih, if_neg hnc]

/-- Straddling occurrences only start in the last `p.length - 1` characters,
so a long right chunk of the left side determines them. -/
theorem crossL_shift {p : List Char} (x y b : List Char)
    (h : p.length ≤ y.length + 1) : crossL p (x ++ y) b = crossL p y b := by
  induction x with
  | nil => rfl
  | cons c x ih =>
    have hstep : crossL p ((c :: x) ++ y) b =
        (if (c :: (x ++ y)).length < p.length ∧
          p.isPrefixOf ((c :: (x ++ y)) ++ b) then 1 else 0) +
          crossL p (x ++ y) b := rfl
    have hnc : ¬ ((c :: (x ++ y)).length < p.length ∧
        p.isPrefixOf ((c :: (x ++ y)) ++ b) = true) := by
      rintro ⟨h1, -⟩
      simp only [List.length_cons, List.length_append] at h1
      omega
    show crossL p ((c :: x) ++ y) b = crossL p y b
    rw [hstep, ih, if_neg hnc]
    omega

/-- `NS p s`: no nonempty suffix of `s` shorter than `p` is a prefix of `p`
(so no occurrence of `p` can start inside `s` and continue past its end). -/
def NS (p s : List Char) : Prop :=
  ∀ x, x <:+ s → x ≠ [] → x.length < p.length → x.isPrefixOf p = false

theorem ns_iff_tails (p s : List Char) :
    NS p s ↔ ∀ x ∈ s.tails, x ≠ [] → x.length < p.length →
      x.isPrefixOf p = false := by
  constructor
  · intro h x hx; exact h x ((List.mem_tails x s).mp hx)
  · intro h x hx; exact h x ((List.mem_tails x s).mpr hx)

/-- `shorterThan x p` decides `x.length < p.length` without computing
lengths (so that it evaluates in bounded depth). -/
def shorterThan : List Char → List Char → Bool
  | _, [] => false
  | [], _ :: _ => true
  | _ :: xs, _ :: ys => shorterThan xs ys

theorem shorterThan_iff : ∀ (x p : List Char),
    shorterThan x p = true ↔ x.length < p.length := by
  intro x
  induction x with
  | nil =>
    intro p
    cases p <;> simp [shorterThan]
  | cons c t ih =>
    intro p
    cases p with
    | nil => simp [shorterThan]
    | cons d q => simp [shorterThan, ih q, Nat.succ_lt_succ_iff]

/-- Executable form of `NS`, walking the suffixes tail-recursively. -/
def nsB (p : List Char) : List Char → Bool
  | [] => true
  | c :: t => (!(shorterThan (c :: t) p && (c :: t).isPrefixOf p)) && nsB p t

theorem nsB_iff (p : List Char) : ∀ s, nsB p s = true ↔ NS p s := by
  intro s
  induction s with
  | nil =>
    simp only [nsB, true_iff]
    intro x hx hne hlt
    exact absurd (List.suffix_nil.mp hx) hne
  | cons c t ih =>
    rw [nsB]
    constructor
    · intro h
      rw [Bool.and_eq_true, Bool.not_eq_true'] at h
      intro x hx hne hlt
      rcases List.suffix_cons_iff.mp hx with rfl | hx'
      · have hs : shorterThan (c :: t) p = true := (shorterThan_iff _ _).mpr hlt
        rcases Bool.and_eq_false_iff.mp h.1 with hf | hf
        · rw [hs] at hf
          exact absurd hf (by simp)
        · exact hf
      · exact (ih.mp h.2) x hx' hne hlt
    · intro h
      rw [Bool.and_eq_true, Bool.not_eq_true']
      constructor
      · by_cases hlt : (c :: t).length < p.length
        · rw [h (c :: t) (List.suffix_refl _) (by simp) hlt]
          simp
        · have hs : shorterThan (c :: t) p = false := by
            cases hb : shorterThan (c :: t) p
            · rfl
            · exact absurd ((shorterThan_iff _ _).mp hb) hlt
          rw [hs]
          simp
      · exact ih.mpr (fun x hx hne hlt => h x (hx.trans (List.suffix_cons c t)) hne hlt)

/-- `NS` only depends on the last `p.length - 1` characters: any dangerous
suffix is shorter than the pattern. -/
theorem ns_win_iff (p s : List Char) :
    NS p (s.drop (s.length + 1 - p.length)) ↔ NS p s := by
  constructor
  · intro h z hz hne hlt
    have hdrop : s.drop (s.length + 1 - p.length) <:+ s := List.drop_suffix _ _
    have hlen : z.length ≤ (s.drop (s.length + 1 - p.length)).length := by
      rw [List.length_drop]
      have hzs : z.length ≤ s.length := hz.length_le
      omega
    exact h z (List.suffix_of_suffix_length_le hz hdrop hlen) hne hlt
  · intro h z hz hne hlt
    exact h z (hz.trans (List.drop_suffix _ _)) hne hlt

instance (p s : List Char) : Decidable (NS p s) :=
  decidable_of_iff (nsB p (s.drop (s.length + 1 - p.length)) = true)
    ((nsB_iff p _).trans (ns_win_iff p s))

theorem crossL_eq_zero_ns {p s : List Char} (b : List Char) (h : NS p s) :
    crossL p s b = 0 := by
  induction s with
  | nil => rfl
  | cons c s ih =>
    have hsfx : ∀ x, x <:+ s → x <:+ c :: s := by
      intro x hx
      exact hx.trans (List.suffix_cons c s)
    have hstep : crossL p (c :: s) b =
        (if (c :: s).length < p.length ∧ p.isPrefixOf ((c :: s) ++ b)
          then 1 else 0) + crossL p s b := rfl
    have hnc : ¬ ((c :: s).length < p.length ∧
        p.isPrefixOf ((c :: s) ++ b) = true) := by
      rintro ⟨h1, h2⟩
      have hcs : (c :: s).isPrefixOf p = true :=
        isPrefixOf_of_short h2 (le_of_lt h1)
      have hf := h (c :: s) (List.suffix_refl _) (by simp) h1
      rw [hf] at hcs
      exact Bool.false_ne_true hcs
    rw [hstep, ih (fun x hx => h x (hsfx x hx)), if_neg hnc]

/-- `NS` only depends on a long enough suffix. -/
theorem ns_append {p : List Char} (x y : List Char)
    (hlen : p.length ≤ y.length + 1) (h : NS p y) : NS p (x ++ y) := by
  intro z hz hne hlt
  have hy : y <:+ x ++ y := List.suffix_append x y
  have hzlen : z.length ≤ y.length := by
    have := hlt
    omega
  have hzy : z <:+ y := List.suffix_of_suffix_length_le hz hy hzlen
  exact h z hzy hne hlt

/-- `NS` is closed under concatenation: a dangerous suffix of `x ++ y`
either lies in `y` or contains all of `y` and then exhibits a dangerous
suffix of `x` as a shorter prefix of the pattern. -/
theorem ns_append_ns {p x y : List Char} (hx : NS p x) (hy : NS p y) :
    NS p (x ++ y) := by
  intro z hz hne hlt
  by_cases hlen : z.length ≤ y.length
  · exact hy z (List.suffix_of_suffix_length_le hz (List.suffix_append x y) hlen) hne hlt
  · push_neg at hlen
    have hzsuf2 : y <:+ z :=
      List.suffix_of_suffix_length_le (List.suffix_append x y) hz (le_of_lt hlen)
    obtain ⟨z', hz'⟩ := hzsuf2
    obtain ⟨w, hw⟩ := hz
    have hz'x : z' <:+ x := by
      have hxy : (w ++ z') ++ y = x ++ y := by
        rw [List.append_assoc, hz', hw]
      exact ⟨w, List.append_cancel_right hxy⟩
    have hz'ne : z' ≠ [] := by
      intro h
      subst h
      simp only [List.nil_append] at hz'
      subst hz'
      omega
    by_contra hcon
    have hzt : z.isPrefixOf p = true := by
      cases hzb : z.isPrefixOf p with
      | true => rfl
      | false => exact absurd hzb hcon
    have hzp : z <+: p := List.isPrefixOf_iff_prefix.mp hzt
    have hz'z : z' <+: z := ⟨y, hz'⟩
    have hz'p : z' <+: p := hz'z.trans hzp
    have hz'lt : z'.length < p.length := by
      have hl := congrArg List.length hz'
      simp only [List.length_append] at hl
      omega
    have hfalse := hx z' hz'x hz'ne hz'lt
    rw [List.isPrefixOf_iff_prefix.mpr hz'p] at hfalse
    exact Bool.true_eq_false.mp hfalse

theorem occL_pos_of_decomp (p : List Char) (hp : p ≠ []) (u v : List Char) :
    0 < occL p (u ++ p ++ v) := by
  induction u with
  | nil =>
    rcases List.exists_cons_of_ne_nil hp with ⟨c, t, hct⟩
    subst hct
    have hpfx : (c :: t).isPrefixOf ((c :: t) ++ v) = true :=
      List.isPrefixOf_iff_prefix.mpr (List.prefix_append (c :: t) v)
    have hstep : occL (c :: t) (((c :: t)) ++ v) =
        (if (c :: t).isPrefixOf ((c :: t) ++ v) then 1 else 0) +
          occL (c :: t) (t ++ v) := rfl
    rw [List.nil_append, hstep, if_pos hpfx]
    omega
  | cons c u ih =>
    have hstep : occL p ((c :: u) ++ p ++ v) =
        (if p.isPrefixOf ((c :: u) ++ p ++ v) then 1 else 0) +
          occL p (u ++ p ++ v) := rfl
    rw [hstep]
    omega

/-! ## Template segments

JS template literals are embedded as lists of segments: literal text from
the template, and interpolated fields (`${...}` holes).  `catSegs` renders a
segment list back into the string the template literal evaluates to. -/

/-- One piece of a template literal: literal text or an interpolated field. -/
inductive Seg : Type
  | lit : String → Seg
  | fld : String → Seg

/-- The rendered text of a single segment. -/
def Seg.str : Seg → String
  | .lit s => s
  | .fld s => s

/-- The characters of a rendered segment list. -/
def catData : List Seg → List Char
  | [] => []
  | s :: t => s.str.data ++ catData t

/-- The string a segment list renders to. -/
def catSegs (L : List Seg) : String := ⟨catData L⟩

theorem catData_append (A B : List Seg) :
    catData (A ++ B) = catData A ++ catData B := by
  induction A with
  | nil => rfl
  | cons s A ih =>
    show s.str.data ++ catData (A ++ B) = (s.str.data ++ catData A) ++ catData B
    rw [ih, List.append_assoc]

/-- Well-formedness of a segment list relative to a pattern `p`: every
literal has no dangerous suffix (`NS`), and every field neither contains
the pattern nor ends in a dangerous suffix.  Under these conditions the
occurrences of `p` in the rendered string are exactly the occurrences
inside the literals. -/
inductive SegsOk (p : List Char) : List Seg → Prop
  | nil : SegsOk p []
  | lit (s : String) (rest : List Seg) (h : NS p s.data)
      (ih : SegsOk p rest) : SegsOk p (.lit s :: rest)
  | fld (v : String) (rest : List Seg)
      (h1 : occL p v.data = 0) (h2 : NS p v.data)
      (ih : SegsOk p rest) : SegsOk p (.fld v :: rest)

theorem segsOk_append {p : List Char} {A B : List Seg}
    (hA : SegsOk p A) (hB : SegsOk p B) : SegsOk p (A ++ B) := by
  induction hA with
  | nil => exact hB
  | lit s rest h _ ih => exact SegsOk.lit s _ h ih
  | fld v rest h1 h2 _ ih => exact SegsOk.fld v _ h1 h2 ih

/-- Total occurrences of `p` inside the literal segments. -/
def litOcc (p : List Char) : List Seg → Nat
  | [] => 0
  | .lit s :: rest => occL p s.data + litOcc p rest
  | .fld _ :: rest => litOcc p rest

theorem litOcc_append (p : List Char) (A B : List Seg) :
    litOcc p (A ++ B) = litOcc p A + litOcc p B := by
  induction A with
  | nil => simp [litOcc]
  | cons s A ih =>
    cases s with
    | lit s =>
      show occL p s.data + litOcc p (A ++ B) = occL p s.data + litOcc p A + _
      rw [ih]; omega
    | fld v =>
      show litOcc p (A ++ B) = _
      rw [ih]; rfl

/-- Master counting theorem: for a well-formed segment list, occurrences of
the pattern in the rendered string are exactly those inside the literals. -/
theorem occL_catData {p : List Char} (hp : p ≠ []) {L : List Seg}
    (h : SegsOk p L) : occL p (catData L) = litOcc p L := by
  induction h with
  | nil => rfl
  | lit s rest hns _ ih =>
    show occL p (s.data ++ catData rest) = occL p s.data + litOcc p rest
    rw [occL_append, crossL_eq_zero_ns _ hns, ih]
    omega
  | fld v rest h1 h2 _ ih =>
    show occL p (v.data ++ catData rest) = litOcc p rest
    rw [occL_append, h1, crossL_eq_zero_ns _ h2, ih]
    omega

/-! ## Data model (`PWAConverter` state, src/app.js lines 16–42, 650–672) -/

/-- The configuration record collected by `generatePWA` from the form
(src/app.js lines 657–672). -/
structure PwaConfig where
  name : String
  shortName : String
  appId : String
  folderName : String
  description : String
  themeColor : String
  backgroundColor : String
  startUrl : String
  scope : String
  display : String
  orientation : String
  cacheStrategy : String
  enableOffline : Bool
  enableNotifications : Bool
  deriving DecidableEq

/-- An uploaded browser `File` as the folder ingester sees it:
`webkitRelativePath` (falling back to `name`), size in bytes, the
browser-supplied MIME type (`""` when absent) and its content. -/
structure UFile where
  fullPath : String
  size : Nat
  mime : String
  content : String
  deriving DecidableEq

/-- An entry of `this.files.allFiles` (src/app.js lines 215–221).
`blob` stands for the underlying file bytes. -/
structure FileInfo where
  path : String
  size : Nat
  ftype : String
  name : String
  blob : String
  deriving DecidableEq

/-- `this.files.index` / `.css` / `.js` (path + text content). -/
structure KeyFile where
  path : String
  content : String
  deriving DecidableEq

/-- `this.files` (src/app.js lines 19–32).  The separate icon upload is
modelled as an opaque flag. -/
structure FilesState where
  folderName : Option String
  sanitizedName : Option String
  allFiles : List FileInfo
  totalSize : Nat
  index : Option KeyFile
  css : Option KeyFile
  js : Option KeyFile
  icon : Option Unit
  deriving DecidableEq

/-- The initial `this.files` of the constructor, which is also exactly what
the `catch` branch of `handleFolderUpload` and `reset()` assign. -/
def emptyFiles : FilesState :=
  { folderName := none, sanitizedName := none, allFiles := [], totalSize := 0
    index := none, css := none, js := none, icon := none }

/-! ## String helpers (ASCII embedding of the JS string operations) -/

/-- `String.toLowerCase` (ASCII part, which is all the comparisons need). -/
def lowerS (s : String) : String := ⟨s.data.map Char.toLower⟩

/-- Infix test on character lists (decidable, structural). -/
def isInfixL (p l : List Char) : Bool := l.tails.any fun t => p.isPrefixOf t

/-- JS `String.prototype.includes`. -/
def containsSub (s pat : String) : Bool := isInfixL pat.data s.data

/-- `s.toLowerCase().includes(pat)` for an already-lowercase pattern, the
case-insensitive guard used throughout `injectPWACode`. -/
def containsCI (s pat : String) : Bool :=
  isInfixL (lowerS pat).data (lowerS s).data

/-- JS `String.prototype.endsWith`. -/
def strEndsWith (s suffix : String) : Bool := suffix.data.isSuffixOf s.data

/-- JS `String.prototype.split(sep)` for a single-character separator. -/
def splitCh (c : Char) : List Char → List (List Char)
  | [] => [[]]
  | x :: xs =>
    match splitCh c xs with
    | [] => [[]]
    | h :: t => if x = c then [] :: h :: t else (x :: h) :: t

/-- JS `Array.prototype.join(sep)`. -/
def joinWith (sep : List Char) : List (List Char) → List Char
  | [] => []
  | [x] => x
  | x :: y :: t => x ++ sep ++ joinWith sep (y :: t)

/-- `Array.prototype.join(sep)` on strings. -/
def joinStr (sep : String) : List String → String
  | [] => ""
  | [x] => x
  | x :: y :: t => x ++ sep ++ joinStr sep (y :: t)

/-- `getRelativePath` (src/app.js lines 255–260): split the full path on
`/`, drop the first segment (the folder name), rejoin. -/
def getRelativePath (f : UFile) : String :=
  ⟨joinWith ['/'] ((splitCh '/' f.fullPath.data).drop 1)⟩

/-- The first path segment, used for the folder name
(src/app.js lines 135–136). -/
def firstSegment (s : String) : String :=
  ⟨(splitCh '/' s.data).headD []⟩

/-- The last path segment, standing for the browser's `File.name`. -/
def lastSegment (s : String) : String :=
  ⟨(splitCh '/' s.data).getLastD []⟩

/-- `guessFileType` (src/app.js lines 265–290): extension → MIME table. -/
def guessFileType (filename : String) : String :=
  let ext : String := ⟨((splitCh '.' filename.data).getLastD []).map Char.toLower⟩
  if ext = "html" then "text/html"
  else if ext = "css" then "text/css"
  else if ext = "js" then "application/javascript"
  else if ext = "json" then "application/json"
  else if ext = "png" then "image/png"
  else if ext = "jpg" then "image/jpeg"
  else if ext = "jpeg" then "image/jpeg"
  else if ext = "gif" then "image/gif"
  else if ext = "svg" then "image/svg+xml"
  else if ext = "webp" then "image/webp"
  else if ext = "mp3" then "audio/mpeg"
  else if ext = "wav" then "audio/wav"
  else if ext = "ogg" then "audio/ogg"
  else if ext = "mp4" then "video/mp4"
  else if ext = "webm" then "video/webm"
  else if ext = "woff" then "font/woff"
  else if ext = "woff2" then "font/woff2"
  else if ext = "ttf" then "font/ttf"
  else if ext = "txt" then "text/plain"
  else if ext = "xml" then "application/xml"
  else "application/octet-stream"

/-- `validateHTML` (src/app.js lines 310–313). -/
def validateHTML (content : String) : Bool :=
  containsSub (lowerS content) "<!doctype" || containsSub (lowerS content) "<html"

/-! ## `sanitizeFolderName` (src/app.js lines 427–435) -/

/-- ASCII whitespace matched by the JS `\s` class. -/
def isJsWs (c : Char) : Bool :=
  c == ' ' || c == '\t' || c == '\n' || c == '\r' || c == '\x0b' || c == '\x0c'

/-- `.trim()`. -/
def jsTrim (l : List Char) : List Char :=
  ((l.dropWhile isJsWs).reverse.dropWhile isJsWs).reverse

/-- The `\s+`-to-`-` global replacement: each maximal whitespace run becomes one `-`.
The flag tracks whether we are inside a run. -/
def collapseWsGo (inWs : Bool) : List Char → List Char
  | [] => []
  | c :: cs =>
    if isJsWs c then
      if inWs then collapseWsGo true cs else '-' :: collapseWsGo true cs
    else c :: collapseWsGo false cs

def collapseWs (l : List Char) : List Char := collapseWsGo false l

/-- The class `[a-z0-9-]` kept by the third replacement. -/
def isAllowedChar (c : Char) : Bool :=
  ('a' ≤ c && c ≤ 'z') || ('0' ≤ c && c ≤ '9') || c == '-'

/-- The hyphen-run collapse: each maximal `-` run becomes one `-`. -/
def collapseHyGo (inH : Bool) : List Char → List Char
  | [] => []
  | c :: cs =>
    if c = '-' then
      if inH then collapseHyGo true cs else '-' :: collapseHyGo true cs
    else c :: collapseHyGo false cs

def collapseHy (l : List Char) : List Char := collapseHyGo false l

/-- Strip one leading hyphen. -/
def stripLead (l : List Char) : List Char :=
  if l.head? = some '-' then l.tail else l

/-- Strip one trailing hyphen. -/
def stripTrail (l : List Char) : List Char :=
  if l.getLast? = some '-' then l.dropLast else l

/-- The edge-hyphen strip: one leading and one trailing hyphen. -/
def stripEdgeHyphens (l : List Char) : List Char := stripTrail (stripLead l)

/-- `sanitizeFolderName` (src/app.js lines 427–435): lowercase, trim,
whitespace→`-`, strip `[^a-z0-9-]`, collapse `-+`, strip edge hyphens. -/
def sanitizeFolderName (name : String) : String :=
  ⟨stripEdgeHyphens (collapseHy (List.filter isAllowedChar
    (collapseWs (jsTrim (name.data.map Char.toLower)))))⟩

/-! ## Folder ingestion (src/app.js lines 118–250, 295–305) -/

/-- The `fileInfo` record pushed for every file
(src/app.js lines 215–221); `file.type || this.guessFileType(...)`. -/
def mkFileInfo (f : UFile) : FileInfo :=
  let rel := getRelativePath f
  { path := rel, size := f.size
    ftype := if f.mime = "" then guessFileType rel else f.mime
    name := lastSegment f.fullPath
    blob := f.content }

/-- One iteration of the `processAllFiles` loop
(src/app.js lines 211–249): push the `fileInfo`, then fill `index`, the
first `css`, or the first acceptable `js`. -/
def processOne (st : FilesState) (f : UFile) : FilesState :=
  if getRelativePath f = "index.html" then
    { st with allFiles := st.allFiles ++ [mkFileInfo f]
              index := some ⟨getRelativePath f, f.content⟩ }
  else if strEndsWith (getRelativePath f) ".css" && st.css.isNone then
    { st with allFiles := st.allFiles ++ [mkFileInfo f]
              css := some ⟨getRelativePath f, f.content⟩ }
  else if strEndsWith (getRelativePath f) ".js" && st.js.isNone then
    if !(containsSub (getRelativePath f) "node_modules") &&
        !(containsSub (getRelativePath f) "dist") then
      { st with allFiles := st.allFiles ++ [mkFileInfo f]
                js := some ⟨getRelativePath f, f.content⟩ }
    else { st with allFiles := st.allFiles ++ [mkFileInfo f] }
  else { st with allFiles := st.allFiles ++ [mkFileInfo f] }

/-- `processAllFiles` (src/app.js lines 208–250): reset `allFiles`, then
fold the loop body over the input in order. -/
def processAllFiles (st : FilesState) (files : List UFile) : FilesState :=
  files.foldl processOne { st with allFiles := [] }

inductive UploadError : Type
  | tooLarge
  | noIndex
  | invalidHtml
  deriving DecidableEq

inductive UploadOutcome : Type
  /-- `files.length === 0`: early return, no status change. -/
  | empty
  /-- an error was thrown and caught: state reset, error status shown. -/
  | fatal : UploadError → UploadOutcome
  /-- success; the flag records whether the soft size warning was shown. -/
  | ok : Bool → UploadOutcome
  deriving DecidableEq

/-- `handleFolderUpload` (src/app.js lines 118–203) as a state transformer:
folder-name extraction, size ceiling/warning, `processAllFiles`,
`validateFolderStructure`; any thrown error resets `this.files`. -/
def handleFolderUpload (st : FilesState) (files : List UFile) :
    FilesState × UploadOutcome :=
  match files with
  | [] => (st, .empty)
  | f0 :: rest =>
    if (((f0 :: rest).map (·.size)).sum > 100 * 1024 * 1024) then
      (emptyFiles, .fatal .tooLarge)
    else
      match (processAllFiles
          { st with folderName := some (firstSegment f0.fullPath)
                    sanitizedName :=
                      some (sanitizeFolderName (firstSegment f0.fullPath))
                    totalSize := ((f0 :: rest).map (·.size)).sum }
          (f0 :: rest)).index with
      | none => (emptyFiles, .fatal .noIndex)
      | some ix =>
        if validateHTML ix.content then
          (processAllFiles
            { st with folderName := some (firstSegment f0.fullPath)
                      sanitizedName :=
                        some (sanitizeFolderName (firstSegment f0.fullPath))
                      totalSize := ((f0 :: rest).map (·.size)).sum }
            (f0 :: rest),
           .ok (((f0 :: rest).map (·.size)).sum > 50 * 1024 * 1024))
        else (emptyFiles, .fatal .invalidHtml)

/-! ## JSON serialization (`JSON.stringify(·, null, 2)`) -/

def hexDigit (n : Nat) : Char :=
  if n < 10 then Char.ofNat (48 + n) else Char.ofNat (87 + n)

/-- Character escaping of `JSON.stringify` string output. -/
def jsonEscChar (c : Char) : List Char :=
  if c = '"' then ['\\', '"']
  else if c = '\\' then ['\\', '\\']
  else if c = '\x08' then ['\\', 'b']
  else if c = '\t' then ['\\', 't']
  else if c = '\n' then ['\\', 'n']
  else if c = '\x0c' then ['\\', 'f']
  else if c = '\r' then ['\\', 'r']
  else if c.toNat < 32 then
    ['\\', 'u', '0', '0', hexDigit (c.toNat / 16), hexDigit (c.toNat % 16)]
  else [c]

def jsonEsc (s : String) : String := ⟨(s.data.map jsonEscChar).flatten⟩

/-- A JSON string literal. -/
def jsonStr (s : String) : String := "\"" ++ jsonEsc s ++ "\""

/-! ## `generateManifest` (src/app.js lines 729–759) -/

/-- One entry of the manifest `icons` array; `typ` is the JSON key
`"type"`. -/
structure IconEntry where
  src : String
  sizes : String
  typ : String
  purpose : String
  deriving DecidableEq

/-- The fixed icon size ladder (src/app.js line 745). -/
def iconSizes : List Nat := [72, 96, 128, 144, 152, 192, 384, 512]

/-- The icon entries pushed by `generateManifest` (src/app.js 746–753):
`purpose` is `'any maskable'` for sizes ≥ 192 and `'any'` below. -/
def manifestIcons : List IconEntry :=
  iconSizes.map fun size =>
    { src := "icons/icon-" ++ Nat.repr size ++ "x" ++ Nat.repr size ++ ".png"
      sizes := Nat.repr size ++ "x" ++ Nat.repr size
      typ := "image/png"
      purpose := if size ≥ 192 then "any maskable" else "any" }

/-- `JSON.stringify(entry, null, 2)` for one icon entry at depth 2. -/
def renderIcon (e : IconEntry) : String :=
  "\x7b\n      \"src\": " ++ jsonStr e.src ++
  ",\n      \"sizes\": " ++ jsonStr e.sizes ++
  ",\n      \"type\": " ++ jsonStr e.typ ++
  ",\n      \"purpose\": " ++ jsonStr e.purpose ++ "\n    \x7d"

/-- The rendered `icons` array value. -/
def renderIcons (es : List IconEntry) : String :=
  "[\n    " ++ joinStr ",\n    " (es.map renderIcon) ++ "\n  ]"

/-- `generateManifest` (src/app.js lines 729–758):
`JSON.stringify(manifest, null, 2)` with the keys in insertion order. -/
def generateManifest (cfg : PwaConfig) : String :=
  "\x7b\n  \"id\": " ++ jsonStr cfg.appId ++
  ",\n  \"name\": " ++ jsonStr cfg.name ++
  ",\n  \"short_name\": " ++ jsonStr cfg.shortName ++
  ",\n  \"description\": " ++ jsonStr cfg.description ++
  ",\n  \"start_url\": " ++ jsonStr cfg.startUrl ++
  ",\n  \"scope\": " ++ jsonStr cfg.scope ++
  ",\n  \"display\": " ++ jsonStr cfg.display ++
  ",\n  \"orientation\": " ++ jsonStr cfg.orientation ++
  ",\n  \"theme_color\": " ++ jsonStr cfg.themeColor ++
  ",\n  \"background_color\": " ++ jsonStr cfg.backgroundColor ++
  ",\n  \"icons\": " ++ renderIcons manifestIcons ++
  ",\n  \"categories\": [\n    \"utilities\",\n    \"productivity\"\n  ]\n\x7d"

/-! ## `generateServiceWorker` (src/app.js lines 764–868)

The template literal is embedded as a segment list: the `swT_l*` constants
are the literal chunks of the template, in order, and the fields are the
`${...}` interpolations. -/

def swT_l1 : String := "/**\n * Service Worker for "

def swT_l2 : String := "\n * Generated by PWA Converter v2.0.1\n * Cache Strategy: "

def swT_l3 : String := "\n * Folder: "

def swT_l4 : String := "\n * Total Files Cached: "

def swT_l5 : String := "\n */\n\nconst CACHE_NAME = '"

def swT_l6 : String := "';\nconst OFFLINE_URL = '"

def swT_l7 : String := "';\n\nconst urlsToCache = "

def swT_l8 : String := ";\n\n// Install event - cache ALL resources\nself.addEventListener('install', event => \x7b\n    console.log('[Service Worker] Installing for "

def swT_l9 : String := "...');\n    console.log('[Service Worker] Caching "

def swT_l10 : String := " files...');\n    event.waitUntil(\n        caches.open(CACHE_NAME)\n            .then(cache => \x7b\n                console.log('[Service Worker] Caching app shell and all files');\n                return cache.addAll(urlsToCache);\n            \x7d)\n            .then(() => \x7b\n                console.log('[Service Worker] All files cached successfully');\n                return self.skipWaiting();\n            \x7d)\n            .catch(error => \x7b\n                console.error('[Service Worker] Cache failed:', error);\n            \x7d)\n    );\n\x7d);\n\n// Activate event - clean up old caches\nself.addEventListener('activate', event => \x7b\n    console.log('[Service Worker] Activating...');\n    event.waitUntil(\n        caches.keys().then(cacheNames => \x7b\n            return Promise.all(\n                cacheNames\n                    .filter(name => name !== CACHE_NAME)\n                    .map(name => \x7b\n                        console.log('[Service Worker] Deleting old cache:', name);\n                        return caches.delete(name);\n                    \x7d)\n            );\n        \x7d).then(() => self.clients.claim())\n    );\n\x7d);\n\n// Fetch event - serve from cache or network\nself.addEventListener('fetch', event => \x7b\n    "

def swT_l11 : String := "\n\x7d);\n\n"

def swT_l12 : String := "\n\n// Background sync (if supported)\nself.addEventListener('sync', event => \x7b\n    if (event.tag === 'sync-data') \x7b\n        event.waitUntil(syncData());\n    \x7d\n\x7d);\n\nasync function syncData() \x7b\n    console.log('[Service Worker] Background sync triggered');\n    // Implement your sync logic here\n\x7d\n\n// Helper function to check if request is navigational\nfunction isNavigationRequest(request) \x7b\n    return request.mode === 'navigate' || \n           (request.method === 'GET' && request.headers.get('accept').includes('text/html'));\n\x7d\n\nconsole.log('[Service Worker] Loaded successfully for "

def swT_l13 : String := "');\nconsole.log('[Service Worker] Scope: "

def swT_l14 : String := "');\nconsole.log('[Service Worker] Caching "

def swT_l15 : String := " files including all your assets');"

def cf_l1 : String := "    // Cache First Strategy - Serves cached content immediately\n    if (event.request.method !== 'GET') \x7b\n        return;\n    \x7d\n\n    event.respondWith(\n        caches.match(event.request)\n            .then(cachedResponse => \x7b\n                if (cachedResponse) \x7b\n                    return cachedResponse;\n                \x7d\n\n                return fetch(event.request).then(response => \x7b\n                    if (!response || response.status !== 200 || response.type !== 'basic') \x7b\n                        return response;\n                    \x7d\n\n                    const responseToCache = response.clone();\n                    caches.open(CACHE_NAME).then(cache => \x7b\n                        cache.put(event.request, responseToCache);\n                    \x7d);\n\n                    return response;\n                \x7d).catch(error => \x7b\n                    "

def cf_l2 : String := "\n                    throw error;\n                \x7d);\n            \x7d)\n    );"

def nf_l1 : String := "    // Network First Strategy - Always tries network first\n    if (event.request.method !== 'GET') \x7b\n        return;\n    \x7d\n\n    event.respondWith(\n        fetch(event.request)\n            .then(response => \x7b\n                if (response.status === 200) \x7b\n                    const responseToCache = response.clone();\n                    caches.open(CACHE_NAME).then(cache => \x7b\n                        cache.put(event.request, responseToCache);\n                    \x7d);\n                \x7d\n                return response;\n            \x7d)\n            .catch(error => \x7b\n                return caches.match(event.request).then(cachedResponse => \x7b\n                    if (cachedResponse) \x7b\n                        return cachedResponse;\n                    \x7d\n                    "

def nf_l2 : String := "\n                    throw error;\n                \x7d);\n            \x7d)\n    );"

def swr_l1 : String := "    // Stale While Revalidate Strategy - Balanced approach\n    if (event.request.method !== 'GET') \x7b\n        return;\n    \x7d\n\n    event.respondWith(\n        caches.match(event.request).then(cachedResponse => \x7b\n            const fetchPromise = fetch(event.request).then(response => \x7b\n                if (response.status === 200) \x7b\n                    const responseToCache = response.clone();\n                    caches.open(CACHE_NAME).then(cache => \x7b\n                        cache.put(event.request, responseToCache);\n                    \x7d);\n                \x7d\n                return response;\n            \x7d).catch(error => \x7b\n                "

def swr_l2 : String := "\n                throw error;\n            \x7d);\n\n            return cachedResponse || fetchPromise;\n        \x7d)\n    );"

def nt_l1 : String := "\n// Push notification handler\nself.addEventListener('push', event => \x7b\n    console.log('[Service Worker] Push received');\n    \n    const options = \x7b\n        body: event.data ? event.data.text() : 'New notification from "

def nt_l2 : String := "',\n        icon: '"

def nt_l3 : String := "icons/icon-192x192.png',\n        badge: '"

def nt_l4 : String := "icons/icon-72x72.png',\n        vibrate: [200, 100, 200],\n        tag: 'notification-tag',\n        requireInteraction: false,\n        actions: [\n            \x7b action: 'open', title: 'Open App' \x7d,\n            \x7b action: 'close', title: 'Close' \x7d\n        ]\n    \x7d;\n\n    event.waitUntil(\n        self.registration.showNotification('"

def nt_l5 : String := "', options)\n    );\n\x7d);\n\n// Notification click handler\nself.addEventListener('notificationclick', event => \x7b\n    console.log('[Service Worker] Notification clicked');\n    event.notification.close();\n\n    if (event.action === 'open' || !event.action) \x7b\n        event.waitUntil(\n            clients.openWindow('"

def nt_l6 : String := "')\n        );\n    \x7d\n\x7d);"

def reg_l1 : String := "\n    <script>\n        // PWA Service Worker Registration\n        // Generated by PWA Converter v2.0.1\n        if ('serviceWorker' in navigator) \x7b\n            window.addEventListener('load', () => \x7b\n                // Use RELATIVE path for service worker (works with multi-app setup)\n                navigator.serviceWorker.register('sw.js')\n                    .then(registration => \x7b\n                        console.log('✓ Service Worker registered:', registration.scope);\n                        console.log('✓ Service Worker URL:', registration.active ? registration.active.scriptURL : 'installing...');\n                        console.log('✓ App: "

def reg_l2 : String := "');\n                        console.log('✓ Folder: "

def reg_l3 : String := "');\n                        console.log('✓ Total files cached: "

def reg_l4 : String := "'); // +3 for manifest, sw, offline\n                        \n                        // Check for updates periodically\n                        setInterval(() => \x7b\n                            registration.update();\n                        \x7d, 60000); // Check every minute\n                    \x7d)\n                    .catch(error => \x7b\n                        console.error('✗ Service Worker registration failed:', error);\n                    \x7d);\n            \x7d);\n        \x7d else \x7b\n            console.warn('⚠ Service Workers not supported in this browser');\n        \x7d\n\n        // PWA Install Prompt\n        let deferredPrompt;\n        window.addEventListener('beforeinstallprompt', (e) => \x7b\n            e.preventDefault();\n            deferredPrompt = e;\n            console.log('💡 PWA install prompt available');\n            // Show custom install UI\n            showInstallPromotion();\n        \x7d);\n\n        function showInstallPromotion() \x7b\n            // You can implement custom install UI here\n            console.log('📱 App can be installed - Click browser menu or use custom UI');\n        \x7d\n\n        // Install PWA function (call from your custom install button)\n        async function installPWA() \x7b\n            if (!deferredPrompt) \x7b\n                console.log('❌ Install prompt not available');\n                return;\n            \x7d\n            deferredPrompt.prompt();\n            const \x7b outcome \x7d = await deferredPrompt.userChoice;\n            console.log(`User response to install prompt: $\x7boutcome\x7d`);\n            deferredPrompt = null;\n        \x7d\n\n        // Track installation\n        window.addEventListener('appinstalled', () => \x7b\n            console.log('✅ PWA installed successfully!');\n            console.log('✅ App: "

def reg_l5 : String := "');\n            console.log('✅ App ID: "

def reg_l6 : String := "');\n            console.log('✅ Folder: "

def reg_l7 : String := "');\n            deferredPrompt = null;\n        \x7d);\n\n        // Display mode detection\n        function getPWADisplayMode() \x7b\n            const isStandalone = window.matchMedia('(display-mode: standalone)').matches;\n            if (document.referrer.startsWith('android-app://')) \x7b\n                return 'twa';\n            \x7d else if (navigator.standalone || isStandalone) \x7b\n                return 'standalone';\n            \x7d\n            return 'browser';\n        \x7d\n\n        const displayMode = getPWADisplayMode();\n        console.log('🖥️ Display mode:', displayMode);\n        \n        // Log PWA configuration\n        console.log('⚙️ PWA Configuration:');\n        console.log('  - App Name: "

def reg_l8 : String := "');\n        console.log('  - App ID: "

def reg_l9 : String := "');\n        console.log('  - Start URL: "

def reg_l10 : String := "');\n        console.log('  - Scope: "

def reg_l11 : String := "');\n        console.log('  - Folder: "

def reg_l12 : String := "');\n        console.log('  - Files included: "

def reg_l13 : String := "');\n    </script>"

def ap_l1 : String := "    <meta name=\"apple-mobile-web-app-capable\" content=\"yes\">\n    <meta name=\"apple-mobile-web-app-status-bar-style\" content=\"default\">\n    <meta name=\"apple-mobile-web-app-title\" content=\""

def ap_l2 : String := "\">\n    <link rel=\"apple-touch-icon\" href=\"icons/icon-192x192.png\">"

/-- `urlsToCache` (src/app.js lines 768–782): the three fixed entries, a
scope-prefixed entry per uploaded file, and the offline page if enabled. -/
def urlsToCache (cfg : PwaConfig) (files : List FileInfo) : List String :=
  [cfg.startUrl, cfg.startUrl ++ "index.html", cfg.startUrl ++ "manifest.json"] ++
    files.map (fun f => cfg.startUrl ++ f.path) ++
    (if cfg.enableOffline then [cfg.startUrl ++ "offline.html"] else [])

/-- The conditional offline-navigation fallback interpolated into the
cache-first and network-first strategy bodies. -/
def offNavCF : String := "\n                    if (isNavigationRequest(event.request)) \x7b\n                        return caches.match(OFFLINE_URL);\n                    \x7d"

/-- The same fallback at the indentation used by stale-while-revalidate. -/
def offNavSWR : String := "\n                if (isNavigationRequest(event.request)) \x7b\n                    return caches.match(OFFLINE_URL);\n                \x7d"

/-- `generateCacheFirstStrategy` (src/app.js lines 873–906). -/
def generateCacheFirstStrategy (cfg : PwaConfig) : String :=
  cf_l1 ++ (if cfg.enableOffline then offNavCF else "") ++ cf_l2

/-- `generateNetworkFirstStrategy` (src/app.js lines 911–941). -/
def generateNetworkFirstStrategy (cfg : PwaConfig) : String :=
  nf_l1 ++ (if cfg.enableOffline then offNavCF else "") ++ nf_l2

/-- `generateStaleWhileRevalidateStrategy` (src/app.js lines 946–973). -/
def generateStaleWhileRevalidateStrategy (cfg : PwaConfig) : String :=
  swr_l1 ++ (if cfg.enableOffline then offNavSWR else "") ++ swr_l2

/-- `cacheStrategies[this.config.cacheStrategy]` (src/app.js lines 784–788,
842): object lookup by the strategy string; a missing key interpolates as
`undefined`. -/
def strategyLookup (cfg : PwaConfig) : String :=
  if cfg.cacheStrategy = "cache-first" then generateCacheFirstStrategy cfg
  else if cfg.cacheStrategy = "network-first" then generateNetworkFirstStrategy cfg
  else if cfg.cacheStrategy = "stale-while-revalidate" then
    generateStaleWhileRevalidateStrategy cfg
  else "undefined"

/-- `generateNotificationHandlers` (src/app.js lines 978–1013) as a
segment list. -/
def notifSegs (cfg : PwaConfig) : List Seg :=
  [Seg.lit nt_l1, Seg.fld cfg.name, Seg.lit nt_l2, Seg.fld cfg.startUrl,
   Seg.lit nt_l3, Seg.fld cfg.startUrl, Seg.lit nt_l4, Seg.fld cfg.name,
   Seg.lit nt_l5, Seg.fld cfg.startUrl, Seg.lit nt_l6]

def generateNotificationHandlers (cfg : PwaConfig) : String :=
  catSegs (notifSegs cfg)

/-- `JSON.stringify(urls, null, 2)` as a segment list (element strings are
fields, punctuation is literal). -/
def jsonArrSegs : List String → List Seg
  | [] => [Seg.lit "[]"]
  | u :: rest =>
    [Seg.lit "[\n  \"", Seg.fld (jsonEsc u)] ++
      (rest.map (fun v => [Seg.lit "\",\n  \"", Seg.fld (jsonEsc v)])).flatten ++
      [Seg.lit "\"\n]"]

/-- `JSON.stringify` of a string array with 2-space indentation. -/
def jsonStringifyArr (urls : List String) : String := catSegs (jsonArrSegs urls)

/-- The full service-worker template (src/app.js lines 790–867) as a
segment list; `CACHE_NAME` is `folderName` + `-v1` (line 765). -/
def swSegs (cfg : PwaConfig) (files : List FileInfo) : List Seg :=
  let urls := urlsToCache cfg files
  [Seg.lit swT_l1, Seg.fld cfg.name, Seg.lit swT_l2, Seg.fld cfg.cacheStrategy,
   Seg.lit swT_l3, Seg.fld cfg.folderName, Seg.lit swT_l4,
   Seg.fld (Nat.repr urls.length), Seg.lit swT_l5, Seg.fld cfg.folderName,
   Seg.lit "-v1", Seg.lit swT_l6] ++
  (if cfg.enableOffline then [Seg.fld cfg.startUrl, Seg.lit "offline.html"]
   else []) ++
  [Seg.lit swT_l7] ++ jsonArrSegs urls ++
  [Seg.lit swT_l8, Seg.fld cfg.name, Seg.lit swT_l9,
   Seg.fld (Nat.repr urls.length), Seg.lit swT_l10,
   Seg.lit (strategyLookup cfg), Seg.lit swT_l11] ++
  (if cfg.enableNotifications then notifSegs cfg else []) ++
  [Seg.lit swT_l12, Seg.fld cfg.name, Seg.lit swT_l13, Seg.fld cfg.scope,
   Seg.lit swT_l14, Seg.fld (Nat.repr urls.length), Seg.lit swT_l15]

/-- `generateServiceWorker` (src/app.js lines 764–868). -/
def generateServiceWorker (cfg : PwaConfig) (files : List FileInfo) : String :=
  catSegs (swSegs cfg files)

/-! ## `injectPWACode` (src/app.js lines 1018–1143)

Each insertion is a guarded case-insensitive first-occurrence replacement;
the service-worker registration has no guard. -/

/-- First case-insensitive occurrence of the (lowercase) pattern `patL`:
returns `(before, matched, after)`. -/
def splitFirstCI (patL : List Char) : List Char → Option (List Char × List Char × List Char)
  | [] => none
  | c :: cs =>
    if ((c :: cs).take patL.length).map Char.toLower = patL then
      some ([], (c :: cs).take patL.length, (c :: cs).drop patL.length)
    else
      match splitFirstCI patL cs with
      | none => none
      | some (a, m, b) => some (c :: a, m, b)

/-- `html.replace(/pat/i, repl)` for a literal pattern: replace the first
case-insensitive match, or return the input unchanged. -/
def replaceFirstCI (pat repl s : String) : String :=
  match splitFirstCI (pat.data.map Char.toLower) s.data with
  | none => s
  | some (a, _, b) => ⟨a ++ repl.data ++ b⟩

/-- The viewport insertion (src/app.js lines 1022–1027). -/
def viewportIns : String := "<head>\n    <meta name=\"viewport\" content=\"width=device-width, initial-scale=1.0\">"

def viewportStep (html : String) : String :=
  if containsCI html "viewport" then html
  else replaceFirstCI "<head>" viewportIns html

/-- `themeColorTag` (src/app.js line 1030). -/
def themeColorTag (cfg : PwaConfig) : String :=
  "<meta name=\"theme-color\" content=\"" ++ cfg.themeColor ++ "\">"

/-- Theme-color insertion (src/app.js lines 1030–1033). -/
def themeStep (cfg : PwaConfig) (html : String) : String :=
  if containsCI html "theme-color" then html
  else replaceFirstCI "</head>" ("    " ++ themeColorTag cfg ++ "\n</head>") html

/-- Manifest-link insertion (src/app.js lines 1036–1039). -/
def manifestStep (html : String) : String :=
  if containsCI html "manifest" then html
  else replaceFirstCI "</head>"
    ("    <link rel=\"manifest\" href=\"manifest.json\">\n</head>") html

/-- `appleMeta` (src/app.js lines 1042–1045) as a segment list. -/
def appleMetaSegs (cfg : PwaConfig) : List Seg :=
  [Seg.lit ap_l1, Seg.fld cfg.shortName, Seg.lit ap_l2]

def appleMeta (cfg : PwaConfig) : String := catSegs (appleMetaSegs cfg)

/-- Apple-meta insertion (src/app.js lines 1042–1049). -/
def appleStep (cfg : PwaConfig) (html : String) : String :=
  if containsCI html "apple-mobile-web-app" then html
  else replaceFirstCI "</head>" (appleMeta cfg ++ "\n</head>") html

/-- `swRegistration` (src/app.js lines 1052–1138) as a segment list;
`n` is `this.files.allFiles.length`. -/
def regSegs (cfg : PwaConfig) (n : Nat) : List Seg :=
  [Seg.lit reg_l1, Seg.fld cfg.name, Seg.lit reg_l2, Seg.fld cfg.folderName,
   Seg.lit reg_l3, Seg.fld (Nat.repr (n + 3)), Seg.lit reg_l4,
   Seg.fld cfg.name, Seg.lit reg_l5, Seg.fld cfg.appId, Seg.lit reg_l6,
   Seg.fld cfg.folderName, Seg.lit reg_l7, Seg.fld cfg.name, Seg.lit reg_l8,
   Seg.fld cfg.appId, Seg.lit reg_l9, Seg.fld cfg.startUrl, Seg.lit reg_l10,
   Seg.fld cfg.scope, Seg.lit reg_l11, Seg.fld cfg.folderName, Seg.lit reg_l12,
   Seg.fld (Nat.repr n), Seg.lit reg_l13]

def swRegistration (cfg : PwaConfig) (n : Nat) : String := catSegs (regSegs cfg n)

/-- Unguarded registration insertion before `</body>`
(src/app.js line 1140). -/
def regStep (cfg : PwaConfig) (n : Nat) (html : String) : String :=
  replaceFirstCI "</body>" (swRegistration cfg n ++ "\n</body>") html

/-- `injectPWACode` (src/app.js lines 1018–1143): the five insertions in
source order, applied to `this.files.index.content`. -/
def injectPWACode (cfg : PwaConfig) (n : Nat) (indexContent : String) : String :=
  regStep cfg n (appleStep cfg (manifestStep (themeStep cfg
    (viewportStep indexContent))))

/-! ## `downloadAll` packaging (src/app.js lines 1569–1636) -/

/-- Content given to `zip.file`: generated text or original file bytes. -/
inductive ZContent : Type
  | text : String → ZContent
  | blob : String → ZContent
  deriving DecidableEq

/-- `this.generatedFiles` at packaging time. -/
structure GeneratedFiles where
  manifest : String
  serviceWorker : String
  html : String
  js : String
  offline : Option String
  icons : List (String × String)
  deriving DecidableEq

/-- The sequence of `zip.file` calls performed by `downloadAll`
(src/app.js lines 1577–1611), in order: every user file (with the injected
HTML for `index.html` and the enhanced script for the primary script),
then `manifest.json`, `sw.js`, the optional `offline.html`, the icons under
`icons/`, and `README.md`.  The README text is produced by
`generateReadme`; its content plays no role in the claims and is passed
through as `readme`. -/
def downloadAllEntries (fs : FilesState) (gen : GeneratedFiles)
    (readme : String) : List (String × ZContent) :=
  fs.allFiles.map (fun f =>
    if f.path = "index.html" then ("index.html", ZContent.text gen.html)
    else if (match fs.js with
             | some j => decide (f.path = j.path)
             | none => false) then (f.path, ZContent.text gen.js)
    else (f.path, ZContent.blob f.blob)) ++
  [("manifest.json", ZContent.text gen.manifest),
   ("sw.js", ZContent.text gen.serviceWorker)] ++
  (match gen.offline with
   | some o => [("offline.html", ZContent.text o)]
   | none => []) ++
  gen.icons.map (fun ic => ("icons/" ++ ic.1, ZContent.blob ic.2)) ++
  [("README.md", ZContent.text readme)]

/-- The final content of the archive at a path: JSZip's `zip.file` replaces
an existing entry with the same name, so the last write wins. -/
def zipGet (entries : List (String × ZContent)) (p : String) : Option ZContent :=
  entries.foldl (fun acc e => if e.1 = p then some e.2 else acc) none

/-! ## Generic string helpers for the theorems -/

theorem str_ext {a b : String} (h : a.data = b.data) : a = b := by
  cases a; cases b; exact congrArg String.mk h

theorem mk_append (x y : List Char) :
    (⟨x ++ y⟩ : String) = (⟨x⟩ : String) ++ (⟨y⟩ : String) :=
  str_ext (by rw [String.data_append])

theorem catSegs_append (A B : List Seg) :
    catSegs (A ++ B) = catSegs A ++ catSegs B := by
  unfold catSegs
  rw [catData_append, mk_append]

theorem zip_foldl_acc (B : List (String × ZContent)) (p : String) :
    ∀ acc, B.foldl (fun acc e => if e.1 = p then some e.2 else acc) acc =
      (match B.foldl (fun acc e => if e.1 = p then some e.2 else acc) none with
       | some c => some c
       | none => acc) := by
  induction B with
  | nil => intro acc; rfl
  | cons e B ih =>
    intro acc
    simp only [List.foldl_cons]
    rw [ih (if e.1 = p then some e.2 else acc),
        ih (if e.1 = p then some e.2 else none)]
    cases hB : B.foldl (fun acc e => if e.1 = p then some e.2 else acc) none with
    | some c => rfl
    | none =>
      by_cases he : e.1 = p
      · simp [he]
      · simp [he]

/-- Last-write-wins across concatenated entry lists. -/
theorem zipGet_append (A B : List (String × ZContent)) (p : String) :
    zipGet (A ++ B) p =
      (match zipGet B p with
       | some c => some c
       | none => zipGet A p) := by
  unfold zipGet
  rw [List.foldl_append]
  exact zip_foldl_acc B p (zipGet A p)

/-! ## Properties of `sanitizeFolderName` -/

/-- Adjacent characters are never both hyphens. -/
def Rhy (a b : Char) : Prop := ¬ (a = '-' ∧ b = '-')

theorem collapseHyGo_cons (b : Bool) (c : Char) (cs : List Char) :
    collapseHyGo b (c :: cs) =
      if c = '-' then
        (if b then collapseHyGo true cs else '-' :: collapseHyGo true cs)
      else c :: collapseHyGo false cs := rfl

theorem collapseHyGo_true_head : ∀ l : List Char,
    (collapseHyGo true l).head? ≠ some '-' := by
  intro l
  induction l with
  | nil => simp [collapseHyGo]
  | cons c cs ih =>
    rw [collapseHyGo_cons]
    by_cases hc : c = '-'
    · rw [if_pos hc, if_pos rfl]
      exact ih
    · rw [if_neg hc]
      simpa using hc

theorem collapseHyGo_chain : ∀ (l : List Char) (b : Bool),
    List.Chain' Rhy (collapseHyGo b l) := by
  intro l
  induction l with
  | nil => intro b; simp [collapseHyGo]
  | cons c cs ih =>
    intro b
    rw [collapseHyGo_cons]
    by_cases hc : c = '-'
    · rw [if_pos hc]
      cases b with
      | true => exact ih true
      | false =>
        rw [if_neg (by simp)]
        rw [List.chain'_cons']
        refine ⟨?_, ih true⟩
        intro y hy
        rintro ⟨-, hy'⟩
        exact collapseHyGo_true_head cs (hy' ▸ hy)
    · rw [if_neg hc, List.chain'_cons']
      refine ⟨?_, ih false⟩
      intro y _
      rintro ⟨hc', -⟩
      exact hc hc'

theorem mem_collapseHyGo {c : Char} : ∀ (l : List Char) (b : Bool),
    c ∈ collapseHyGo b l → c ∈ l ∨ c = '-' := by
  intro l
  induction l with
  | nil => intro b h; simp [collapseHyGo] at h
  | cons x cs ih =>
    intro b h
    rw [collapseHyGo_cons] at h
    by_cases hx : x = '-'
    · rw [if_pos hx] at h
      cases b with
      | true =>
        rw [if_pos rfl] at h
        rcases ih true h with h' | h'
        · exact Or.inl (List.mem_cons_of_mem _ h')
        · exact Or.inr h'
      | false =>
        rw [if_neg (by simp)] at h
        rcases List.mem_cons.mp h with rfl | h'
        · exact Or.inr rfl
        · rcases ih true h' with h'' | h''
          · exact Or.inl (List.mem_cons_of_mem _ h'')
          · exact Or.inr h''
    · rw [if_neg hx] at h
      rcases List.mem_cons.mp h with rfl | h'
      · exact Or.inl (List.mem_cons_self _ _)
      · rcases ih false h' with h'' | h''
        · exact Or.inl (List.mem_cons_of_mem _ h'')
        · exact Or.inr h''

/-- On a hyphen-run-free list, dropping a trailing hyphen cannot expose
another trailing hyphen. -/
theorem chain_dropLast_getLast : ∀ l : List Char, List.Chain' Rhy l →
    l.getLast? = some '-' → (l.dropLast).getLast? ≠ some '-' := by
  intro l
  induction l with
  | nil => intro _ h; simp at h
  | cons c t ih =>
    intro hch hlast
    cases t with
    | nil => simp
    | cons d t' =>
      rw [List.getLast?_cons_cons] at hlast
      have hch' : List.Chain' Rhy (d :: t') := (List.chain'_cons.mp hch).2
      cases t' with
      | nil =>
        -- l = [c, d] with d = '-'; dropLast = [c] and Rhy c d forces c ≠ '-'
        simp only [List.getLast?_singleton] at hlast
        have hR : Rhy c d := (List.chain'_cons.mp hch).1
        have hc : c ≠ '-' := fun hc => hR ⟨hc, by simpa using hlast⟩
        simp [List.dropLast, hc]
      | cons e t'' =>
        have hd := ih hch' hlast
        show ((c :: d :: e :: t'').dropLast).getLast? ≠ some '-'
        rw [List.dropLast_cons₂, List.dropLast_cons₂, List.getLast?_cons_cons]
        rw [List.dropLast_cons₂] at hd
        exact hd

theorem head?_dropLast_ne {l : List Char} (h : l.head? ≠ some '-') :
    (l.dropLast).head? ≠ some '-' := by
  cases l with
  | nil => simp
  | cons c t =>
    cases t with
    | nil => simp
    | cons d t' =>
      rw [List.dropLast_cons₂]
      simpa using h

/-- `isInfixL` is the infix relation. -/
theorem isInfixL_iff {p l : List Char} : isInfixL p l = true ↔ p <:+: l := by
  unfold isInfixL
  rw [List.any_eq_true]
  constructor
  · rintro ⟨t, ht, hp⟩
    exact List.infix_iff_prefix_suffix.mpr
      ⟨t, List.isPrefixOf_iff_prefix.mp hp, (List.mem_tails t l).mp ht⟩
  · intro h
    obtain ⟨t, hp, hs⟩ := List.infix_iff_prefix_suffix.mp h
    exact ⟨t, (List.mem_tails t l).mpr hs, List.isPrefixOf_iff_prefix.mpr hp⟩

/-- C10 helper: everything `sanitizeFolderName` emits survives these three
post-processing stages. -/
theorem sanitize_data (s : String) :
    (sanitizeFolderName s).data =
      stripTrail (stripLead (collapseHy (List.filter isAllowedChar
        (collapseWs (jsTrim (s.data.map Char.toLower)))))) := rfl

/-- C1/C10 claim theorems come after all embedding definitions; the first
two claims proved are about `sanitizeFolderName` and `generateManifest`. -/
theorem sanitize_chars_aux (s : String) :
    (∀ c ∈ (sanitizeFolderName s).data, isAllowedChar c = true) ∧
    List.Chain' Rhy (sanitizeFolderName s).data ∧
    (sanitizeFolderName s).data.head? ≠ some '-' ∧
    (sanitizeFolderName s).data.getLast? ≠ some '-' := by
  rw [sanitize_data]
  have hbase : ∀ c ∈ collapseHy (List.filter isAllowedChar
      (collapseWs (jsTrim (s.data.map Char.toLower)))), isAllowedChar c = true := by
    intro c hc
    rcases mem_collapseHyGo _ false hc with h | h
    · exact List.of_mem_filter h
    · subst h; decide
  have hchain : List.Chain' Rhy (collapseHy (List.filter isAllowedChar
      (collapseWs (jsTrim (s.data.map Char.toLower))))) :=
    collapseHyGo_chain _ false
  generalize hB : collapseHy (List.filter isAllowedChar
    (collapseWs (jsTrim (s.data.map Char.toLower)))) = B at hbase hchain ⊢
  -- stripLead
  have hslmem : ∀ c ∈ stripLead B, isAllowedChar c = true := by
    intro c hc
    unfold stripLead at hc
    by_cases hh : B.head? = some '-'
    · rw [if_pos hh] at hc
      exact hbase c (List.mem_of_mem_tail hc)
    · rw [if_neg hh] at hc
      exact hbase c hc
  have hslchain : List.Chain' Rhy (stripLead B) := by
    unfold stripLead
    by_cases hh : B.head? = some '-'
    · rw [if_pos hh]
      exact hchain.tail
    · rw [if_neg hh]
      exact hchain
  have hslhead : (stripLead B).head? ≠ some '-' := by
    unfold stripLead
    by_cases hh : B.head? = some '-'
    · rw [if_pos hh]
      cases B with
      | nil => simp at hh
      | cons c t =>
        have hc : c = '-' := by simpa using hh
        subst hc
        show t.head? ≠ some '-'
        intro ht
        cases t with
        | nil => simp at ht
        | cons d t' =>
          have hd : d = '-' := by simpa using ht
          subst hd
          exact (List.chain'_cons.mp hchain).1 ⟨rfl, rfl⟩
    · rw [if_neg hh]
      exact hh
  generalize hS : stripLead B = S at hslmem hslchain hslhead
  -- stripTrail
  refine ⟨?_, ?_, ?_, ?_⟩
  · intro c hc
    unfold stripTrail at hc
    by_cases hl : S.getLast? = some '-'
    · rw [if_pos hl] at hc
      exact hslmem c (List.dropLast_sublist S |>.mem hc)
    · rw [if_neg hl] at hc
      exact hslmem c hc
  · unfold stripTrail
    by_cases hl : S.getLast? = some '-'
    · rw [if_pos hl]
      exact hslchain.prefix (List.dropLast_prefix S)
    · rw [if_neg hl]
      exact hslchain
  · unfold stripTrail
    by_cases hl : S.getLast? = some '-'
    · rw [if_pos hl]
      exact head?_dropLast_ne hslhead
    · rw [if_neg hl]
      exact hslhead
  · unfold stripTrail
    by_cases hl : S.getLast? = some '-'
    · rw [if_pos hl]
      exact chain_dropLast_getLast S hslchain hl
    · rw [if_neg hl]
      exact hl

/-- C10: every output of `sanitizeFolderName` consists only of lowercase
ASCII letters, digits and hyphens, never contains two consecutive hyphens,
and neither starts nor ends with a hyphen. -/
theorem sanitizeFolderName_shape (s : String) :
    (∀ c ∈ (sanitizeFolderName s).data, isAllowedChar c = true) ∧
    isInfixL ['-', '-'] (sanitizeFolderName s).data = false ∧
    (sanitizeFolderName s).data.head? ≠ some '-' ∧
    (sanitizeFolderName s).data.getLast? ≠ some '-' := by
  obtain ⟨h1, h2, h3, h4⟩ := sanitize_chars_aux s
  refine ⟨h1, ?_, h3, h4⟩
  by_contra hinf
  rw [Bool.not_eq_false] at hinf
  have h5 : List.Chain' Rhy ['-', '-'] := h2.infix (isInfixL_iff.mp hinf)
  exact (List.chain'_cons.mp h5).1 ⟨rfl, rfl⟩

/-- C4: the manifest text embeds the icon array rendered from
`manifestIcons`: exactly 8 entries with the fixed size ladder in order;
entries of numeric size ≥ 192 carry purpose `any maskable` (containing both
`maskable` and `any`), smaller entries carry purpose `any` only. -/
theorem manifest_icons_ladder (cfg : PwaConfig) :
    (generateManifest cfg =
      ("\x7b\n  \"id\": " ++ jsonStr cfg.appId ++
       ",\n  \"name\": " ++ jsonStr cfg.name ++
       ",\n  \"short_name\": " ++ jsonStr cfg.shortName ++
       ",\n  \"description\": " ++ jsonStr cfg.description ++
       ",\n  \"start_url\": " ++ jsonStr cfg.startUrl ++
       ",\n  \"scope\": " ++ jsonStr cfg.scope ++
       ",\n  \"display\": " ++ jsonStr cfg.display ++
       ",\n  \"orientation\": " ++ jsonStr cfg.orientation ++
       ",\n  \"theme_color\": " ++ jsonStr cfg.themeColor ++
       ",\n  \"background_color\": " ++ jsonStr cfg.backgroundColor ++
       ",\n  \"icons\": ") ++ renderIcons manifestIcons ++
      ",\n  \"categories\": [\n    \"utilities\",\n    \"productivity\"\n  ]\n\x7d") ∧
    manifestIcons.length = 8 ∧
    manifestIcons.map IconEntry.sizes =
      ["72x72", "96x96", "128x128", "144x144", "152x152", "192x192",
       "384x384", "512x512"] ∧
    (∀ pr ∈ iconSizes.zip manifestIcons,
      (192 ≤ pr.1 → containsSub pr.2.purpose "maskable" = true ∧
        containsSub pr.2.purpose "any" = true) ∧
      (pr.1 < 192 → pr.2.purpose = "any")) := by
  refine ⟨?_, by decide, by decide, by decide⟩
  apply str_ext
  simp only [generateManifest, String.data_append, List.append_assoc]

/-! ## Selection and validation lemmas for ingestion -/

/-- The primary-stylesheet condition of the `processAllFiles` loop. -/
def cssCandidate (rel : String) : Bool := strEndsWith rel ".css"

/-- The primary-script condition of the `processAllFiles` loop: ends in
`.js` and contains neither `node_modules` nor `dist`. -/
def jsCandidate (rel : String) : Bool :=
  strEndsWith rel ".js" && !(containsSub rel "node_modules") &&
    !(containsSub rel "dist")

theorem not_ends_js_of_ends_css {rel : String}
    (h : strEndsWith rel ".css" = true) : strEndsWith rel ".js" = false := by
  by_contra hc
  rw [Bool.not_eq_false] at hc
  have h1 : ".css".data <:+ rel.data := List.isSuffixOf_iff_suffix.mp h
  have h2 : ".js".data <:+ rel.data := List.isSuffixOf_iff_suffix.mp hc
  have h3 : ".js".data <:+ ".css".data :=
    List.suffix_of_suffix_length_le h2 h1 (by decide)
  exact absurd h3 (by decide)

theorem processOne_index (st : FilesState) (f : UFile) :
    (processOne st f).index =
      if getRelativePath f = "index.html" then
        some ⟨getRelativePath f, f.content⟩
      else st.index := by
  unfold processOne
  by_cases h1 : getRelativePath f = "index.html"
  · simp [h1]
  · simp [h1, apply_ite FilesState.index]

theorem processOne_css (st : FilesState) (f : UFile) :
    (processOne st f).css =
      if st.css.isNone && cssCandidate (getRelativePath f) then
        some ⟨getRelativePath f, f.content⟩
      else st.css := by
  unfold processOne cssCandidate
  by_cases h1 : getRelativePath f = "index.html"
  · have hcss : strEndsWith "index.html" ".css" = false := by decide
    simp [h1, hcss]
  · cases hcss : strEndsWith (getRelativePath f) ".css"
    · simp [h1, hcss, apply_ite FilesState.css]
    · cases hn : st.css.isNone
      · simp [h1, hcss, hn, apply_ite FilesState.css]
      · simp [h1, hcss, hn]

theorem processOne_js (st : FilesState) (f : UFile) :
    (processOne st f).js =
      if st.js.isNone && jsCandidate (getRelativePath f) then
        some ⟨getRelativePath f, f.content⟩
      else st.js := by
  unfold processOne jsCandidate
  by_cases h1 : getRelativePath f = "index.html"
  · have hjs : strEndsWith "index.html" ".js" = false := by decide
    simp [h1, hjs]
  · cases hcss : strEndsWith (getRelativePath f) ".css"
    · cases hn : st.js.isNone <;> cases hej : strEndsWith (getRelativePath f) ".js" <;>
        cases hnm : containsSub (getRelativePath f) "node_modules" <;>
        cases hd : containsSub (getRelativePath f) "dist" <;>
        simp [h1, hcss, hn, hej, hnm, hd, apply_ite FilesState.js]
    · have hjs := not_ends_js_of_ends_css hcss
      simp [h1, hcss, hjs, apply_ite FilesState.js]

/-- Once the primary script is chosen, later files never change it. -/
theorem foldl_js_some : ∀ (files : List UFile) (st : FilesState) (j : KeyFile),
    st.js = some j → (files.foldl processOne st).js = some j := by
  intro files
  induction files with
  | nil => intro st j h; exact h
  | cons f fs ih =>
    intro st j h
    show (fs.foldl processOne (processOne st f)).js = some j
    apply ih
    rw [processOne_js, h]
    simp

theorem foldl_css_some : ∀ (files : List UFile) (st : FilesState) (j : KeyFile),
    st.css = some j → (files.foldl processOne st).css = some j := by
  intro files
  induction files with
  | nil => intro st j h; exact h
  | cons f fs ih =>
    intro st j h
    show (fs.foldl processOne (processOne st f)).css = some j
    apply ih
    rw [processOne_css, h]
    simp

/-- The primary script is the first acceptable `.js` file in input order. -/
theorem foldl_js_none : ∀ (files : List UFile) (st : FilesState),
    st.js = none → (files.foldl processOne st).js =
      (files.find? (fun f => jsCandidate (getRelativePath f))).map
        (fun f => (⟨getRelativePath f, f.content⟩ : KeyFile)) := by
  intro files
  induction files with
  | nil => intro st h; simpa using h
  | cons f fs ih =>
    intro st h
    show (fs.foldl processOne (processOne st f)).js = _
    by_cases hc : jsCandidate (getRelativePath f) = true
    · have hset : (processOne st f).js = some ⟨getRelativePath f, f.content⟩ := by
        rw [processOne_js, h, hc]
        simp
      rw [foldl_js_some fs _ _ hset]
      have hfind : List.find? (fun f => jsCandidate (getRelativePath f)) (f :: fs)
          = some f := by
        simp [List.find?_cons, hc]
      rw [hfind]
      rfl
    · have hfalse : jsCandidate (getRelativePath f) = false := by
        simpa using hc
      have hkeep : (processOne st f).js = none := by
        rw [processOne_js, h, hfalse]
        simp
      rw [ih _ hkeep, List.find?_cons_of_neg _ (by simp [hfalse])]

/-- The primary stylesheet is the first `.css` file in input order. -/
theorem foldl_css_none : ∀ (files : List UFile) (st : FilesState),
    st.css = none → (files.foldl processOne st).css =
      (files.find? (fun f => cssCandidate (getRelativePath f))).map
        (fun f => (⟨getRelativePath f, f.content⟩ : KeyFile)) := by
  intro files
  induction files with
  | nil => intro st h; simpa using h
  | cons f fs ih =>
    intro st h
    show (fs.foldl processOne (processOne st f)).css = _
    by_cases hc : cssCandidate (getRelativePath f) = true
    · have hset : (processOne st f).css = some ⟨getRelativePath f, f.content⟩ := by
        rw [processOne_css, h, hc]
        simp
      rw [foldl_css_some fs _ _ hset]
      have hfind : List.find? (fun f => cssCandidate (getRelativePath f)) (f :: fs)
          = some f := by
        simp [List.find?_cons, hc]
      rw [hfind]
      rfl
    · have hfalse : cssCandidate (getRelativePath f) = false := by
        simpa using hc
      have hkeep : (processOne st f).css = none := by
        rw [processOne_css, h, hfalse]
        simp
      rw [ih _ hkeep, List.find?_cons_of_neg _ (by simp [hfalse])]

/-- `this.files.index` after the loop is the last `index.html` seen. -/
theorem foldl_index : ∀ (files : List UFile) (st : FilesState),
    (files.foldl processOne st).index =
      (match (files.filter
          (fun f => getRelativePath f = "index.html")).getLast? with
       | some f => some ⟨getRelativePath f, f.content⟩
       | none => st.index) := by
  intro files
  induction files using List.reverseRecOn with
  | nil => intro st; rfl
  | append_singleton fs f ih =>
    intro st
    rw [List.foldl_append]
    show (processOne (fs.foldl processOne st) f).index = _
    rw [processOne_index]
    by_cases hf : getRelativePath f = "index.html"
    · rw [if_pos hf]
      have hfil : (fs ++ [f]).filter
          (fun f => getRelativePath f = "index.html") =
          fs.filter (fun f => getRelativePath f = "index.html") ++ [f] := by
        rw [List.filter_append]
        simp [hf]
      rw [hfil, List.getLast?_concat]
    · rw [if_neg hf, ih]
      have hfil : (fs ++ [f]).filter
          (fun f => getRelativePath f = "index.html") =
          fs.filter (fun f => getRelativePath f = "index.html") := by
        rw [List.filter_append]
        simp [hf]
      rw [hfil]

/-- The content of the root document the ingester ends up reading: the
last uploaded file whose relative path is exactly `index.html`. -/
def rootDoc (files : List UFile) : Option String :=
  ((files.filter (fun f => getRelativePath f = "index.html")).getLast?).map
    (fun f => f.content)

/-- C7: processed in input order, the primary script is the first file
ending in `.js` outside `node_modules`/`dist`, and the primary stylesheet
is the first file ending in `.css`; the concrete pair of swapped lists
shows the selection follows input order, not alphabetical order. -/
theorem processAllFiles_primary_selection :
    (∀ files : List UFile,
      (processAllFiles emptyFiles files).js =
        (files.find? (fun f => jsCandidate (getRelativePath f))).map
          (fun f => (⟨getRelativePath f, f.content⟩ : KeyFile)) ∧
      (processAllFiles emptyFiles files).css =
        (files.find? (fun f => cssCandidate (getRelativePath f))).map
          (fun f => (⟨getRelativePath f, f.content⟩ : KeyFile))) ∧
    (processAllFiles emptyFiles
        [⟨"app/zeta.js", 1, "", "zc"⟩, ⟨"app/alpha.js", 1, "", "ac"⟩]).js =
      some ⟨"zeta.js", "zc"⟩ ∧
    (processAllFiles emptyFiles
        [⟨"app/alpha.js", 1, "", "ac"⟩, ⟨"app/zeta.js", 1, "", "zc"⟩]).js =
      some ⟨"alpha.js", "ac"⟩ := by
  refine ⟨fun files => ⟨?_, ?_⟩, by decide, by decide⟩
  · exact foldl_js_none files _ rfl
  · exact foldl_css_none files _ rfl

/-- C3 (amended to nonempty uploads): a nonempty upload with no
`index.html`, or whose root document fails the doctype sniff, ends in a
fatal error with the file state fully reset to `emptyFiles`. -/
theorem upload_root_validation (files : List UFile) (hne : files ≠ [])
    (hbad : rootDoc files = none ∨
      ∃ c, rootDoc files = some c ∧ validateHTML c = false) :
    ∃ e, handleFolderUpload emptyFiles files =
      (emptyFiles, UploadOutcome.fatal e) := by
  obtain ⟨f0, rest, rfl⟩ := List.exists_cons_of_ne_nil hne
  by_cases hbig : (((f0 :: rest).map (·.size)).sum > 100 * 1024 * 1024)
  · refine ⟨.tooLarge, ?_⟩
    simp only [handleFolderUpload]
    rw [if_pos hbig]
  · rcases hbad with hnone | ⟨c, hsome, hinv⟩
    · have hlast : ((f0 :: rest).filter
          (fun f => getRelativePath f = "index.html")).getLast? = none := by
        unfold rootDoc at hnone
        exact Option.map_eq_none'.mp hnone
      refine ⟨.noIndex, ?_⟩
      simp only [handleFolderUpload]
      rw [if_neg hbig]
      have hidx' : (processAllFiles
          { emptyFiles with
            folderName := some (firstSegment f0.fullPath)
            sanitizedName := some (sanitizeFolderName (firstSegment f0.fullPath))
            totalSize := ((f0 :: rest).map (·.size)).sum }
          (f0 :: rest)).index = none := by
        unfold processAllFiles
        rw [foldl_index, hlast]
        rfl
      rw [hidx']
    · obtain ⟨g, hg, hgc⟩ := Option.map_eq_some'.mp hsome
      refine ⟨.invalidHtml, ?_⟩
      simp only [handleFolderUpload]
      rw [if_neg hbig]
      have hidx' : (processAllFiles
          { emptyFiles with
            folderName := some (firstSegment f0.fullPath)
            sanitizedName := some (sanitizeFolderName (firstSegment f0.fullPath))
            totalSize := ((f0 :: rest).map (·.size)).sum }
          (f0 :: rest)).index = some ⟨getRelativePath g, g.content⟩ := by
        unfold processAllFiles
        rw [foldl_index, hg]
      rw [hidx']
      have hvf : validateHTML g.content = false := hgc ▸ hinv
      simp [hvf]

/-- C3 counterexample: an empty file list has no root document, yet the
upload handler returns early with no fatal error at all. -/
theorem upload_empty_no_fatal :
    (∀ f ∈ ([] : List UFile), getRelativePath f ≠ "index.html") ∧
    handleFolderUpload emptyFiles [] = (emptyFiles, UploadOutcome.empty) ∧
    (∀ e, (handleFolderUpload emptyFiles []).2 ≠ UploadOutcome.fatal e) := by
  refine ⟨by simp, rfl, fun e h => by cases h⟩

theorem upload_root_validation_witness :
    ∃ e, handleFolderUpload emptyFiles [⟨"app/readme.txt", 3, "", "hi"⟩] =
      (emptyFiles, UploadOutcome.fatal e) :=
  upload_root_validation [⟨"app/readme.txt", 3, "", "hi"⟩] (by simp)
    (Or.inl (by decide))

/-- C5: totals above 100 MiB abort fatally with the size error; totals in
the warning band (above 50 MiB, at most 100 MiB) proceed — for an
otherwise-valid folder — with the warned success outcome. -/
theorem upload_size_limits (files : List UFile) :
    ((files.map (·.size)).sum > 100 * 1024 * 1024 →
      handleFolderUpload emptyFiles files =
        (emptyFiles, UploadOutcome.fatal UploadError.tooLarge)) ∧
    ((files.map (·.size)).sum > 50 * 1024 * 1024 →
      (files.map (·.size)).sum ≤ 100 * 1024 * 1024 →
      (∃ c, rootDoc files = some c ∧ validateHTML c = true) →
      (handleFolderUpload emptyFiles files).2 = UploadOutcome.ok true) := by
  constructor
  · intro hbig
    match files with
    | [] => simp at hbig
    | f0 :: rest =>
      simp only [handleFolderUpload]
      rw [if_pos hbig]
  · intro hwarn hmax hvalid
    match files with
    | [] => simp at hwarn
    | f0 :: rest =>
      obtain ⟨c, hsome, hval⟩ := hvalid
      obtain ⟨g, hg, hgc⟩ := Option.map_eq_some'.mp hsome
      have hbig : ¬ (((f0 :: rest).map (·.size)).sum > 100 * 1024 * 1024) := by
        omega
      simp only [handleFolderUpload]
      rw [if_neg hbig]
      have hidx' : (processAllFiles
          { emptyFiles with
            folderName := some (firstSegment f0.fullPath)
            sanitizedName := some (sanitizeFolderName (firstSegment f0.fullPath))
            totalSize := ((f0 :: rest).map (·.size)).sum }
          (f0 :: rest)).index = some ⟨getRelativePath g, g.content⟩ := by
        unfold processAllFiles
        rw [foldl_index, hg]
      rw [hidx']
      have hv : validateHTML g.content = true := hgc ▸ hval
      have hw : 52428800 < f0.size + (List.map (fun x => x.size) rest).sum := by
        simpa using hwarn
      simp [hv, hw]

theorem upload_size_limits_witness :
    handleFolderUpload emptyFiles [⟨"app/big.bin", 104857601, "", ""⟩] =
      (emptyFiles, UploadOutcome.fatal UploadError.tooLarge) ∧
    (handleFolderUpload emptyFiles
        [⟨"app/index.html", 52428801, "", "<!doctype html>"⟩]).2 =
      UploadOutcome.ok true := by
  constructor
  · exact (upload_size_limits [⟨"app/big.bin", 104857601, "", ""⟩]).1
      (by decide)
  · exact (upload_size_limits
      [⟨"app/index.html", 52428801, "", "<!doctype html>"⟩]).2
      (by decide) (by decide)
      ⟨"<!doctype html>", by decide, by decide⟩

/-- C2: the precache list embedded in the service worker is exactly the
three fixed scope-prefixed entries, then one entry per uploaded file in
input order, then the offline page if enabled; with offline disabled and a
single `index.html` file the list has the duplicated root entry. -/
theorem serviceWorker_precache_list (cfg : PwaConfig) (files : List FileInfo) :
    urlsToCache cfg files =
      [cfg.startUrl, cfg.startUrl ++ "index.html",
        cfg.startUrl ++ "manifest.json"] ++
        files.map (fun f => cfg.startUrl ++ f.path) ++
        (if cfg.enableOffline then [cfg.startUrl ++ "offline.html"] else []) ∧
    (∃ pre post : String, generateServiceWorker cfg files =
      pre ++ ("const urlsToCache = " ++
        jsonStringifyArr (urlsToCache cfg files)) ++ post) ∧
    (cfg.enableOffline = false → ∀ f : FileInfo, f.path = "index.html" →
      urlsToCache cfg [f] =
        [cfg.startUrl, cfg.startUrl ++ "index.html",
         cfg.startUrl ++ "manifest.json", cfg.startUrl ++ "index.html"]) := by
  refine ⟨rfl, ?_, ?_⟩
  · refine ⟨catSegs ([Seg.lit swT_l1, Seg.fld cfg.name, Seg.lit swT_l2,
      Seg.fld cfg.cacheStrategy, Seg.lit swT_l3, Seg.fld cfg.folderName,
      Seg.lit swT_l4, Seg.fld (Nat.repr (urlsToCache cfg files).length),
      Seg.lit swT_l5, Seg.fld cfg.folderName, Seg.lit "-v1",
      Seg.lit swT_l6] ++
      (if cfg.enableOffline then [Seg.fld cfg.startUrl, Seg.lit "offline.html"]
       else [])) ++ "';\n\n",
      catSegs ([Seg.lit swT_l8, Seg.fld cfg.name, Seg.lit swT_l9,
        Seg.fld (Nat.repr (urlsToCache cfg files).length), Seg.lit swT_l10,
        Seg.lit (strategyLookup cfg), Seg.lit swT_l11] ++
        (if cfg.enableNotifications then notifSegs cfg else []) ++
        [Seg.lit swT_l12, Seg.fld cfg.name, Seg.lit swT_l13,
         Seg.fld cfg.scope, Seg.lit swT_l14,
         Seg.fld (Nat.repr (urlsToCache cfg files).length),
         Seg.lit swT_l15]), ?_⟩
    apply str_ext
    have h7 : swT_l7.data = "';\n\n".data ++ "const urlsToCache = ".data := rfl
    simp only [generateServiceWorker, catSegs, swSegs, jsonStringifyArr,
      List.append_eq, catData_append, catData, Seg.str, String.data_append, h7,
      List.append_assoc, List.nil_append, List.append_nil]
  · intro hoff f hf
    simp [urlsToCache, hoff, hf]

/-- The cache name written into the worker text is `folderName ++ "-v1"`. -/
theorem sw_cache_name_decomp (cfg : PwaConfig) (files : List FileInfo) :
    ∃ pre post : String, generateServiceWorker cfg files =
      pre ++ ("const CACHE_NAME = '" ++ (cfg.folderName ++ "-v1") ++ "';") ++
        post := by
  refine ⟨catSegs [Seg.lit swT_l1, Seg.fld cfg.name, Seg.lit swT_l2,
      Seg.fld cfg.cacheStrategy, Seg.lit swT_l3, Seg.fld cfg.folderName,
      Seg.lit swT_l4, Seg.fld (Nat.repr (urlsToCache cfg files).length)] ++
      "\n */\n\n",
    "\nconst OFFLINE_URL = '" ++ catSegs (
      (if cfg.enableOffline then [Seg.fld cfg.startUrl, Seg.lit "offline.html"]
       else []) ++
      [Seg.lit swT_l7] ++ jsonArrSegs (urlsToCache cfg files) ++
      [Seg.lit swT_l8, Seg.fld cfg.name, Seg.lit swT_l9,
        Seg.fld (Nat.repr (urlsToCache cfg files).length), Seg.lit swT_l10,
        Seg.lit (strategyLookup cfg), Seg.lit swT_l11] ++
      (if cfg.enableNotifications then notifSegs cfg else []) ++
      [Seg.lit swT_l12, Seg.fld cfg.name, Seg.lit swT_l13, Seg.fld cfg.scope,
        Seg.lit swT_l14, Seg.fld (Nat.repr (urlsToCache cfg files).length),
        Seg.lit swT_l15]), ?_⟩
  apply str_ext
  have h5 : swT_l5.data = "\n */\n\n".data ++ "const CACHE_NAME = '".data := rfl
  have h6 : swT_l6.data = "';".data ++ "\nconst OFFLINE_URL = '".data := rfl
  simp only [generateServiceWorker, catSegs, swSegs, List.append_eq,
    catData_append, catData, Seg.str, String.data_append, h5, h6,
    List.append_assoc, List.nil_append, List.append_nil]

/-- C9: the embedded `CACHE_NAME` is exactly the sanitized folder name with
the fixed `-v1` suffix, and any run with the same folder name embeds the
same cache name. -/
theorem cache_name_sanitized_deterministic (cfg : PwaConfig)
    (files : List FileInfo) (raw : String)
    (hconf : cfg.folderName = sanitizeFolderName raw) :
    (∃ pre post : String, generateServiceWorker cfg files =
      pre ++ ("const CACHE_NAME = '" ++ (sanitizeFolderName raw ++ "-v1") ++
        "';") ++ post) ∧
    (∀ (cfg₂ : PwaConfig) (files₂ : List FileInfo),
      cfg₂.folderName = cfg.folderName →
      ∃ pre₂ post₂ : String, generateServiceWorker cfg₂ files₂ =
        pre₂ ++ ("const CACHE_NAME = '" ++ (sanitizeFolderName raw ++ "-v1") ++
          "';") ++ post₂) := by
  constructor
  · have h := sw_cache_name_decomp cfg files
    rwa [hconf] at h
  · intro cfg₂ files₂ h₂
    have h := sw_cache_name_decomp cfg₂ files₂
    rwa [h₂, hconf] at h

theorem cache_name_sanitized_deterministic_witness :
    ∃ pre post : String,
      generateServiceWorker
        { name := "Demo", shortName := "Demo", appId := "demo-id"
          folderName := "demo", description := ""
          themeColor := "#2196F3", backgroundColor := "#ffffff"
          startUrl := "/demo/", scope := "/demo/"
          display := "standalone", orientation := "portrait-primary"
          cacheStrategy := "cache-first", enableOffline := false
          enableNotifications := false } [] =
      pre ++ ("const CACHE_NAME = '" ++ (sanitizeFolderName "Demo" ++ "-v1") ++
        "';") ++ post :=
  (cache_name_sanitized_deterministic _ [] "Demo" (by decide)).1

theorem zipGet_eq_none {entries : List (String × ZContent)} {p : String}
    (h : ∀ e ∈ entries, e.1 ≠ p) : zipGet entries p = none := by
  induction entries with
  | nil => rfl
  | cons e rest ih =>
    have : zipGet (e :: rest) p =
        (match zipGet rest p with
         | some c => some c
         | none => zipGet [e] p) := zipGet_append [e] rest p
    rw [this, ih (fun x hx => h x (List.mem_cons_of_mem e hx))]
    show zipGet [e] p = none
    unfold zipGet
    simp [h e (List.mem_cons_self e rest)]

/-- With distinct names, looking up a member entry gives its own content. -/
theorem zipGet_names_nodup : ∀ (E : List (String × ZContent))
    (e : String × ZContent), (E.map (·.1)).Nodup → e ∈ E →
    zipGet E e.1 = some e.2 := by
  intro E
  induction E with
  | nil => intro e _ he; simp at he
  | cons x xs ih =>
    intro e hnodup he
    have hsplit : zipGet (x :: xs) e.1 =
        (match zipGet xs e.1 with
         | some c => some c
         | none => zipGet [x] e.1) := zipGet_append [x] xs e.1
    have hn : x.1 ∉ xs.map (·.1) ∧ (xs.map (·.1)).Nodup :=
      List.nodup_cons.mp hnodup
    rcases List.mem_cons.mp he with rfl | he'
    · have hnone : zipGet xs e.1 = none := by
        apply zipGet_eq_none
        intro y hy hyx
        exact hn.1 (hyx ▸ List.mem_map_of_mem (·.1) hy)
      rw [hsplit, hnone]
      show zipGet [e] e.1 = some e.2
      unfold zipGet
      simp
    · have hsome : zipGet xs e.1 = some e.2 := ih e hn.2 he'
      rw [hsplit, hsome]

theorem zipGet_append_notin (A B : List (String × ZContent)) (p : String)
    (h : ∀ e ∈ B, e.1 ≠ p) : zipGet (A ++ B) p = zipGet A p := by
  rw [zipGet_append, zipGet_eq_none h]

theorem zipGet_append_right {B : List (String × ZContent)} {p : String}
    {c : ZContent} (A : List (String × ZContent)) (h : zipGet B p = some c) :
    zipGet (A ++ B) p = some c := by
  rw [zipGet_append, h]

theorem icons_ne_fixed (x : String) :
    ("icons/" ++ x ≠ "manifest.json") ∧ ("icons/" ++ x ≠ "sw.js") ∧
    ("icons/" ++ x ≠ "README.md") ∧ ("icons/" ++ x ≠ "offline.html") ∧
    ("icons/" ++ x ≠ "index.html") := by
  refine ⟨?_, ?_, ?_, ?_, ?_⟩ <;>
    · intro h
      have := congrArg String.data h
      rw [String.data_append] at this
      simp at this

/-- C8 (amended): provided original paths are distinct and collide with no
generated artifact path, the archive holds every original file at its own
path — the injected HTML at `index.html`, the enhanced script at the
primary script's path, original bytes elsewhere — plus `manifest.json`,
`sw.js`, the icons under `icons/`, `README.md`, and `offline.html`
exactly when an offline page was generated. -/
theorem downloadAll_archive (fs : FilesState) (gen : GeneratedFiles)
    (readme : String)
    (hnodup : (fs.allFiles.map (·.path)).Nodup)
    (hnoclash : ∀ f ∈ fs.allFiles,
      f.path ≠ "manifest.json" ∧ f.path ≠ "sw.js" ∧ f.path ≠ "README.md" ∧
      f.path ≠ "offline.html" ∧ ∀ ic ∈ gen.icons, f.path ≠ "icons/" ++ ic.1)
    (hicons : (gen.icons.map (fun ic => "icons/" ++ ic.1)).Nodup) :
    (∀ f ∈ fs.allFiles,
      zipGet (downloadAllEntries fs gen readme) f.path =
        some (if f.path = "index.html" then ZContent.text gen.html
          else if (match fs.js with
                   | some j => decide (f.path = j.path)
                   | none => false) then ZContent.text gen.js
          else ZContent.blob f.blob)) ∧
    zipGet (downloadAllEntries fs gen readme) "manifest.json" =
      some (ZContent.text gen.manifest) ∧
    zipGet (downloadAllEntries fs gen readme) "sw.js" =
      some (ZContent.text gen.serviceWorker) ∧
    zipGet (downloadAllEntries fs gen readme) "README.md" =
      some (ZContent.text readme) ∧
    (∀ ic ∈ gen.icons, zipGet (downloadAllEntries fs gen readme)
        ("icons/" ++ ic.1) = some (ZContent.blob ic.2)) ∧
    ((∃ o, gen.offline = some o ∧ zipGet (downloadAllEntries fs gen readme)
        "offline.html" = some (ZContent.text o)) ∨
      (gen.offline = none ∧ zipGet (downloadAllEntries fs gen readme)
        "offline.html" = none)) := by
  have hEfst : ∀ x : FileInfo,
      ((if x.path = "index.html" then ("index.html", ZContent.text gen.html)
        else if (match fs.js with
                 | some j => decide (x.path = j.path)
                 | none => false) then (x.path, ZContent.text gen.js)
        else (x.path, ZContent.blob x.blob)) : String × ZContent).1 =
        x.path := by
    intro x
    by_cases h1 : x.path = "index.html"
    · simp [h1]
    · by_cases h2 : (match fs.js with
        | some j => decide (x.path = j.path)
        | none => false) = true
      · simp [h1, h2]
      · simp [h1, h2]
  refine ⟨?_, ?_, ?_, ?_, ?_, ?_⟩
  · -- every original file at its own path
    intro f hf
    obtain ⟨hm, hs, hr, ho, hi⟩ := hnoclash f hf
    unfold downloadAllEntries
    rw [List.append_assoc, List.append_assoc, List.append_assoc]
    rw [zipGet_append_notin]
    · have hmem := List.mem_map_of_mem (fun f =>
        if f.path = "index.html" then ("index.html", ZContent.text gen.html)
        else if (match fs.js with
                 | some j => decide (f.path = j.path)
                 | none => false) then (f.path, ZContent.text gen.js)
        else (f.path, ZContent.blob f.blob)) hf
      have hnames : ((fs.allFiles.map (fun f =>
          if f.path = "index.html" then ("index.html", ZContent.text gen.html)
          else if (match fs.js with
                   | some j => decide (f.path = j.path)
                   | none => false) then (f.path, ZContent.text gen.js)
          else (f.path, ZContent.blob f.blob))).map (·.1)).Nodup := by
        rw [List.map_map]
        have : ∀ x ∈ fs.allFiles, ((·.1) ∘ (fun f =>
            if f.path = "index.html" then ("index.html", ZContent.text gen.html)
            else if (match fs.js with
                     | some j => decide (f.path = j.path)
                     | none => false) then (f.path, ZContent.text gen.js)
            else (f.path, ZContent.blob f.blob))) x = x.path :=
          fun x _ => hEfst x
        rw [List.map_congr_left this]
        exact hnodup
      have := zipGet_names_nodup _ _ hnames hmem
      rw [hEfst f] at this
      rw [this]
      by_cases h1 : f.path = "index.html"
      · simp [h1]
      · by_cases h2 : (match fs.js with
          | some j => decide (f.path = j.path)
          | none => false) = true
        · simp [h1, h2]
        · simp [h1, h2]
    · -- nothing after the user files carries one of their paths
      intro e he
      simp only [List.mem_append] at he
      rcases he with (he | he | he | he)
      · rcases List.mem_cons.mp he with rfl | he'
        · exact fun h => hm h.symm
        · rcases List.mem_cons.mp he' with rfl | he''
          · exact fun h => hs h.symm
          · simp at he''
      · cases hoff : gen.offline with
        | none => rw [hoff] at he; simp at he
        | some o =>
          rw [hoff] at he
          rcases List.mem_cons.mp he with rfl | he'
          · exact fun h => ho h.symm
          · simp at he'
      · obtain ⟨ic, hic, rfl⟩ := List.mem_map.mp he
        exact fun h => hi ic hic h.symm
      · rcases List.mem_cons.mp he with rfl | he'
        · exact fun h => hr h.symm
        · simp at he'
  · -- manifest.json
    unfold downloadAllEntries
    rw [List.append_assoc, List.append_assoc]
    rw [zipGet_append_notin]
    · apply zipGet_append_right
      unfold zipGet
      simp [show ¬(("sw.js" : String) = "manifest.json") from by decide]
    · intro e he
      simp only [List.mem_append] at he
      rcases he with (he | he | he)
      · cases hoff : gen.offline with
        | none => rw [hoff] at he; simp at he
        | some o =>
          rw [hoff] at he
          rcases List.mem_cons.mp he with rfl | he'
          · exact fun h => absurd (show ("offline.html" : String) = "manifest.json" from h) (by decide)
          · simp at he'
      · obtain ⟨ic, hic, rfl⟩ := List.mem_map.mp he
        exact (icons_ne_fixed ic.1).1
      · rcases List.mem_cons.mp he with rfl | he'
        · exact fun h => absurd (show ("README.md" : String) = "manifest.json" from h) (by decide)
        · simp at he'
  · -- sw.js
    unfold downloadAllEntries
    rw [List.append_assoc, List.append_assoc]
    rw [zipGet_append_notin]
    · apply zipGet_append_right
      unfold zipGet
      simp
    · intro e he
      simp only [List.mem_append] at he
      rcases he with (he | he | he)
      · cases hoff : gen.offline with
        | none => rw [hoff] at he; simp at he
        | some o =>
          rw [hoff] at he
          rcases List.mem_cons.mp he with rfl | he'
          · exact fun h => absurd (show ("offline.html" : String) = "sw.js" from h) (by decide)
          · simp at he'
      · obtain ⟨ic, hic, rfl⟩ := List.mem_map.mp he
        exact (icons_ne_fixed ic.1).2.1
      · rcases List.mem_cons.mp he with rfl | he'
        · exact fun h => absurd (show ("README.md" : String) = "sw.js" from h) (by decide)
        · simp at he'
  · -- README.md: the final entry
    unfold downloadAllEntries
    apply zipGet_append_right
    unfold zipGet
    simp
  · -- icons
    intro ic hic
    unfold downloadAllEntries
    rw [zipGet_append_notin]
    · apply zipGet_append_right
      have hmem := List.mem_map_of_mem
        (fun ic => (("icons/" ++ ic.1 : String), ZContent.blob ic.2)) hic
      have hnames : ((gen.icons.map (fun ic =>
          (("icons/" ++ ic.1 : String), ZContent.blob ic.2))).map (·.1)).Nodup := by
        rw [List.map_map]
        exact hicons
      exact zipGet_names_nodup _ _ hnames hmem
    · intro e he
      rcases List.mem_cons.mp he with rfl | he'
      · exact fun h => (icons_ne_fixed ic.1).2.2.1 h.symm
      · simp at he'
  · -- offline.html
    cases hoff : gen.offline with
    | some o =>
      left
      refine ⟨o, rfl, ?_⟩
      unfold downloadAllEntries
      rw [hoff, List.append_assoc]
      rw [zipGet_append_notin]
      · apply zipGet_append_right
        unfold zipGet
        simp
      · intro e he
        simp only [List.mem_append] at he
        rcases he with (he | he)
        · obtain ⟨ic, hic, rfl⟩ := List.mem_map.mp he
          exact (icons_ne_fixed ic.1).2.2.2.1
        · rcases List.mem_cons.mp he with rfl | he'
          · exact fun h => absurd (show ("README.md" : String) = "offline.html" from h) (by decide)
          · simp at he'
    | none =>
      right
      refine ⟨rfl, ?_⟩
      unfold downloadAllEntries
      rw [hoff]
      apply zipGet_eq_none
      intro e he
      simp only [List.append_nil, List.mem_append] at he
      rcases he with (((he | he) | he) | he)
      · obtain ⟨y, hy, rfl⟩ := List.mem_map.mp he
        rw [hEfst y]
        exact (hnoclash y hy).2.2.2.1
      · rcases List.mem_cons.mp he with rfl | he'
        · exact fun h => absurd (show ("manifest.json" : String) = "offline.html" from h) (by decide)
        · rcases List.mem_cons.mp he' with rfl | he''
          · exact fun h => absurd (show ("sw.js" : String) = "offline.html" from h) (by decide)
          · simp at he''
      · obtain ⟨ic, hic, rfl⟩ := List.mem_map.mp he
        exact (icons_ne_fixed ic.1).2.2.2.1
      · rcases List.mem_cons.mp he with rfl | he'
        · exact fun h => absurd (show ("README.md" : String) = "offline.html" from h) (by decide)
        · simp at he'

/-- Concrete files state for exercising the packaging theorem. -/
def wFs : FilesState :=
  { emptyFiles with allFiles :=
      [{ path := "index.html", size := 10, ftype := "text/html",
         name := "index.html", blob := "<html>" },
       { path := "css/style.css", size := 5, ftype := "text/css",
         name := "style.css", blob := "body" }] }

/-- Concrete generated artifacts for exercising the packaging theorem. -/
def wGen : GeneratedFiles :=
  { manifest := "M", serviceWorker := "S", html := "H", js := "J",
    offline := some "O", icons := [("icon-72x72.png", "I72")] }

theorem downloadAll_archive_witness :
    (wFs.allFiles.map (·.path)).Nodup ∧
    zipGet (downloadAllEntries wFs wGen "RD") "manifest.json" =
      some (ZContent.text wGen.manifest) :=
  ⟨by decide,
    (downloadAll_archive wFs wGen "RD" (by decide) (by decide) (by decide)).2.1⟩

/-- C8 counterexample to the unamended claim: in a run where an original
file sits at relative path `manifest.json`, the archive holds the generated
manifest there, not the original bytes — JSZip's later `zip.file` call with
the same name overwrites the earlier entry. -/
theorem downloadAll_manifest_overwrite :
    zipGet (downloadAllEntries
        { emptyFiles with allFiles :=
            [{ path := "manifest.json", size := 4,
               ftype := "application/json", name := "manifest.json",
               blob := "ORIG" }] }
        { manifest := "GEN", serviceWorker := "SW", html := "H", js := "J",
          offline := none, icons := [] } "R") "manifest.json" =
      some (ZContent.text "GEN") ∧
    ZContent.text "GEN" ≠ ZContent.blob "ORIG" := by
  decide

/-! ## C1: the fetch-handling block of the generated service worker

The service-worker text is analysed by counting pattern occurrences: the
fetch-listener registration text, and the marker comment each strategy
generator emits at the top of its body. -/

/-- The fetch-listener registration text; in the template it occurs once,
inside `swT_l10`. -/
def pFetch : List Char := "addEventListener('fetch'".data

/-- Marker comment unique to the cache-first strategy body (`cf_l1`). -/
def pCF : List Char := "Cache First Strategy".data

/-- Marker comment unique to the network-first strategy body (`nf_l1`). -/
def pNF : List Char := "Network First Strategy".data

/-- Marker comment unique to the stale-while-revalidate body (`swr_l1`). -/
def pSWR : List Char := "Stale While Revalidate Strategy".data

/-- The four patterns counted for the fetch-block property. -/
def c1Pats : List (List Char) := [pFetch, pCF, pNF, pSWR]

/-- A string is clean for pattern `p` when the pattern does not occur in it
and no dangerous suffix remains at its end. -/
abbrev Clean (p : List Char) (s : String) : Prop :=
  occL p s.data = 0 ∧ NS p s.data

theorem clean_append {p : List Char} {x y : String}
    (hx : Clean p x) (hy : Clean p y) : Clean p (x ++ y) := by
  constructor
  · rw [String.data_append, occL_append, hx.1, hy.1, crossL_eq_zero_ns _ hx.2]
  · rw [String.data_append]
    exact ns_append_ns hx.2 hy.2

theorem digitChar_isDigit : ∀ m, m < 10 → (Nat.digitChar m).isDigit = true := by
  intro m hm
  interval_cases m <;> decide

theorem toDigitsCore_digits (fuel : Nat) : ∀ (n : Nat) (acc : List Char),
    (∀ c ∈ acc, c.isDigit = true) →
    ∀ c ∈ Nat.toDigitsCore 10 fuel n acc, c.isDigit = true := by
  induction fuel with
  | zero =>
    intro n acc hacc c hc
    exact hacc c hc
  | succ fuel ih =>
    intro n acc hacc c hc
    rw [Nat.toDigitsCore] at hc
    by_cases hn : n / 10 = 0
    · rw [if_pos hn] at hc
      rcases List.mem_cons.mp hc with rfl | hc'
      · exact digitChar_isDigit _ (Nat.mod_lt _ (by omega))
      · exact hacc c hc'
    · rw [if_neg hn] at hc
      refine ih (n / 10) _ ?_ c hc
      intro d hd
      rcases List.mem_cons.mp hd with rfl | hd'
      · exact digitChar_isDigit _ (Nat.mod_lt _ (by omega))
      · exact hacc d hd'

/-- `Nat.repr` produces decimal digits only. -/
theorem repr_digits (n : Nat) : ∀ c ∈ (Nat.repr n).data, c.isDigit = true := by
  intro c hc
  exact toDigitsCore_digits (n + 1) n [] (by simp) c hc

/-- A pattern whose head character is not a digit is clean for any string
of digits, such as a `Nat.repr`. -/
theorem clean_of_digits {p : List Char} {c0 : Char} (hp : p.head? = some c0)
    (hc0 : c0.isDigit = false) (s : String)
    (hdig : ∀ c ∈ s.data, c.isDigit = true) : Clean p s := by
  obtain ⟨t, rfl⟩ : ∃ t, p = c0 :: t := by
    cases p with
    | nil => simp at hp
    | cons a t =>
      obtain rfl : a = c0 := by simpa using hp
      exact ⟨t, rfl⟩
  have hc0mem : c0 ∉ s.data := by
    intro hmem
    rw [hdig c0 hmem] at hc0
    exact Bool.true_eq_false.mp hc0
  constructor
  · exact occL_eq_zero_head hc0mem
  · intro z hz hne hlt
    cases z with
    | nil => exact absurd rfl hne
    | cons zc zt =>
      cases hzb : (zc :: zt).isPrefixOf (c0 :: t) with
      | false => rfl
      | true =>
        have hzp : zc :: zt <+: c0 :: t := List.isPrefixOf_iff_prefix.mp hzb
        obtain ⟨rfl, -⟩ := List.cons_prefix_cons.mp hzp
        exact absurd (hz.subset (List.mem_cons_self _ _)) hc0mem

/-- Every character of `s` passes through `jsonEscChar` unchanged. -/
abbrev escSafe (s : String) : Prop := ∀ c ∈ s.data, jsonEscChar c = [c]

theorem flatten_map_esc (l : List Char)
    (h : ∀ c ∈ l, jsonEscChar c = [c]) :
    (l.map jsonEscChar).flatten = l := by
  induction l with
  | nil => rfl
  | cons c l ih =>
    simp only [List.map_cons, List.flatten_cons, h c (by simp)]
    rw [ih (fun d hd => h d (by simp [hd]))]
    rfl

/-- On escape-safe strings, `JSON.stringify` escaping is the identity. -/
theorem jsonEsc_id {s : String} (h : escSafe s) : jsonEsc s = s := by
  apply str_ext
  show (s.data.map jsonEscChar).flatten = s.data
  exact flatten_map_esc s.data h

theorem escSafe_append {x y : String} (hx : escSafe x) (hy : escSafe y) :
    escSafe (x ++ y) := by
  intro c hc
  rw [String.data_append] at hc
  rcases List.mem_append.mp hc with h | h
  · exact hx c h
  · exact hy c h

/-- Every precache URL is clean for `p` once the start URL and the file
paths are clean and escape-safe. -/
theorem clean_urls {p : List Char} (cfg : PwaConfig) (files : List FileInfo)
    (hs : Clean p cfg.startUrl)
    (hpaths : ∀ f ∈ files, Clean p f.path)
    (hi : Clean p "index.html") (hm : Clean p "manifest.json")
    (ho : Clean p "offline.html")
    (hescS : escSafe cfg.startUrl) (hescP : ∀ f ∈ files, escSafe f.path)
    (hei : escSafe "index.html") (hem : escSafe "manifest.json")
    (heo : escSafe "offline.html") :
    ∀ u ∈ urlsToCache cfg files, Clean p (jsonEsc u) := by
  intro u hu
  unfold urlsToCache at hu
  cases hoff : cfg.enableOffline with
  | true =>
    rw [hoff] at hu
    simp only [List.append_assoc, List.mem_append, List.mem_cons,
      List.not_mem_nil, or_false, List.mem_map, List.mem_singleton, if_true] at hu
    rcases hu with (rfl | rfl | rfl) | ⟨f, hf, rfl⟩ | rfl
    · rw [jsonEsc_id hescS]; exact hs
    · rw [jsonEsc_id (escSafe_append hescS hei)]; exact clean_append hs hi
    · rw [jsonEsc_id (escSafe_append hescS hem)]; exact clean_append hs hm
    · rw [jsonEsc_id (escSafe_append hescS (hescP f hf))]
      exact clean_append hs (hpaths f hf)
    · rw [jsonEsc_id (escSafe_append hescS heo)]; exact clean_append hs ho
  | false =>
    rw [hoff, if_neg (by decide : ¬(false = true))] at hu
    simp only [List.append_assoc, List.mem_append, List.mem_cons,
      List.not_mem_nil, or_false, List.mem_map] at hu
    rcases hu with (rfl | rfl | rfl) | ⟨f, hf, rfl⟩
    · rw [jsonEsc_id hescS]; exact hs
    · rw [jsonEsc_id (escSafe_append hescS hei)]; exact clean_append hs hi
    · rw [jsonEsc_id (escSafe_append hescS hem)]; exact clean_append hs hm
    · rw [jsonEsc_id (escSafe_append hescS (hescP f hf))]
      exact clean_append hs (hpaths f hf)

/-- Every literal text that can appear in the service-worker segment list
(apart from the strategy body, handled separately). -/
def c1Lits : List String :=
  [swT_l1, swT_l2, swT_l3, swT_l4, swT_l5, swT_l6, swT_l7, swT_l8, swT_l9,
   swT_l10, swT_l11, swT_l12, swT_l13, swT_l14, swT_l15, "-v1",
   "offline.html", "[]", "[\n  \"", "\",\n  \"", "\"\n]",
   nt_l1, nt_l2, nt_l3, nt_l4, nt_l5, nt_l6]

/-- The literals whose occurrence count must vanish for the counting
theorem: the conditional/punctuation literals outside the fixed template. -/
def c1Side : List String :=
  ["offline.html", "[]", "[\n  \"", "\",\n  \"", "\"\n]",
   nt_l1, nt_l2, nt_l3, nt_l4, nt_l5, nt_l6]

/-- Total occurrences of `p` inside the fifteen fixed template literals and
the `-v1` cache-name suffix. -/
def swBaseOcc (p : List Char) : Nat :=
  occL p swT_l1.data + occL p swT_l2.data + occL p swT_l3.data +
  occL p swT_l4.data + occL p swT_l5.data + occL p "-v1".data +
  occL p swT_l6.data + occL p swT_l7.data + occL p swT_l8.data +
  occL p swT_l9.data + occL p swT_l10.data + occL p swT_l11.data +
  occL p swT_l12.data + occL p swT_l13.data + occL p swT_l14.data +
  occL p swT_l15.data

theorem segsOk_if_off {p : List Char} (b : Bool) (s : String)
    (hs : Clean p s) (ho : NS p "offline.html".data) :
    SegsOk p (if b then [Seg.fld s, Seg.lit "offline.html"] else []) := by
  cases b
  · exact SegsOk.nil
  · exact SegsOk.fld _ _ hs.1 hs.2 (SegsOk.lit _ _ ho SegsOk.nil)

theorem litOcc_if_off {p : List Char} (b : Bool) (s : String)
    (ho : occL p "offline.html".data = 0) :
    litOcc p (if b then [Seg.fld s, Seg.lit "offline.html"] else []) = 0 := by
  cases b <;> simp [litOcc, ho]

theorem segsOk_notif {p : List Char} (cfg : PwaConfig)
    (hn : Clean p cfg.name) (hs : Clean p cfg.startUrl)
    (h1 : NS p nt_l1.data) (h2 : NS p nt_l2.data) (h3 : NS p nt_l3.data)
    (h4 : NS p nt_l4.data) (h5 : NS p nt_l5.data) (h6 : NS p nt_l6.data) :
    SegsOk p (notifSegs cfg) :=
  SegsOk.lit _ _ h1 (SegsOk.fld _ _ hn.1 hn.2 (SegsOk.lit _ _ h2
    (SegsOk.fld _ _ hs.1 hs.2 (SegsOk.lit _ _ h3 (SegsOk.fld _ _ hs.1 hs.2
    (SegsOk.lit _ _ h4 (SegsOk.fld _ _ hn.1 hn.2 (SegsOk.lit _ _ h5
    (SegsOk.fld _ _ hs.1 hs.2 (SegsOk.lit _ _ h6 SegsOk.nil))))))))))

theorem segsOk_if_notif {p : List Char} (b : Bool) (cfg : PwaConfig)
    (hseg : SegsOk p (notifSegs cfg)) :
    SegsOk p (if b then notifSegs cfg else []) := by
  cases b
  · exact SegsOk.nil
  · exact hseg

theorem litOcc_notif {p : List Char} (cfg : PwaConfig)
    (h1 : occL p nt_l1.data = 0) (h2 : occL p nt_l2.data = 0)
    (h3 : occL p nt_l3.data = 0) (h4 : occL p nt_l4.data = 0)
    (h5 : occL p nt_l5.data = 0) (h6 : occL p nt_l6.data = 0) :
    litOcc p (notifSegs cfg) = 0 := by
  simp [notifSegs, litOcc, h1, h2, h3, h4, h5, h6]

theorem litOcc_if_notif {p : List Char} (b : Bool) (cfg : PwaConfig)
    (h : litOcc p (notifSegs cfg) = 0) :
    litOcc p (if b then notifSegs cfg else []) = 0 := by
  cases b
  · rfl
  · exact h

theorem segsOk_jsonArr {p : List Char} (L : List String)
    (h1 : NS p "[]".data) (h2 : NS p "[\n  \"".data)
    (h3 : NS p "\",\n  \"".data) (h4 : NS p "\"\n]".data)
    (hf : ∀ u ∈ L, Clean p (jsonEsc u)) : SegsOk p (jsonArrSegs L) := by
  cases L with
  | nil => exact SegsOk.lit _ _ h1 SegsOk.nil
  | cons u rest =>
    have hm : ∀ M : List String, (∀ w ∈ M, Clean p (jsonEsc w)) →
        SegsOk p ((M.map (fun v => [Seg.lit "\",\n  \"",
          Seg.fld (jsonEsc v)])).flatten) := by
      intro M
      induction M with
      | nil => intro _; exact SegsOk.nil
      | cons v M ih =>
        intro h
        simp only [List.map_cons, List.flatten_cons]
        exact segsOk_append
          (SegsOk.lit _ _ h3 (SegsOk.fld _ _ (h v (by simp)).1
            (h v (by simp)).2 SegsOk.nil))
          (ih (fun w hw => h w (by simp [hw])))
    exact segsOk_append (segsOk_append
      (SegsOk.lit _ _ h2 (SegsOk.fld _ _ (hf u (by simp)).1
        (hf u (by simp)).2 SegsOk.nil))
      (hm rest (fun w hw => hf w (by simp [hw]))))
      (SegsOk.lit _ _ h4 SegsOk.nil)

theorem litOcc_jsonArr {p : List Char} (L : List String)
    (h1 : occL p "[]".data = 0) (h2 : occL p "[\n  \"".data = 0)
    (h3 : occL p "\",\n  \"".data = 0) (h4 : occL p "\"\n]".data = 0) :
    litOcc p (jsonArrSegs L) = 0 := by
  cases L with
  | nil => simp [jsonArrSegs, litOcc, h1]
  | cons u rest =>
    have hm : ∀ M : List String,
        litOcc p ((M.map (fun v => [Seg.lit "\",\n  \"",
          Seg.fld (jsonEsc v)])).flatten) = 0 := by
      intro M
      induction M with
      | nil => rfl
      | cons v M ih =>
        simp only [List.map_cons, List.flatten_cons]
        rw [litOcc_append, ih]
        simp [litOcc, h3]
    show litOcc p ([Seg.lit "[\n  \"", Seg.fld (jsonEsc u)] ++
      (rest.map (fun v => [Seg.lit "\",\n  \"", Seg.fld (jsonEsc v)])).flatten ++
      [Seg.lit "\"\n]"]) = 0
    rw [litOcc_append, litOcc_append, hm]
    simp [litOcc, h2, h4]

/-- Master lemma: under cleanliness of every interpolated field, the
occurrence count of `p` in the generated service worker is the count in
the strategy body plus the count in the fixed template literals. -/
theorem occ_sw_master {p : List Char} (hp : p ≠ []) (cfg : PwaConfig)
    (files : List FileInfo)
    (hname : Clean p cfg.name) (hfold : Clean p cfg.folderName)
    (hstart : Clean p cfg.startUrl) (hscope : Clean p cfg.scope)
    (hcs : Clean p cfg.cacheStrategy)
    (hrep : Clean p (Nat.repr (urlsToCache cfg files).length))
    (hurls : ∀ u ∈ urlsToCache cfg files, Clean p (jsonEsc u))
    (hNS : ∀ s ∈ c1Lits, NS p s.data)
    (hzero : ∀ s ∈ c1Side, occL p s.data = 0)
    (hbody : NS p (strategyLookup cfg).data) :
    occL p (generateServiceWorker cfg files).data =
      occL p (strategyLookup cfg).data + swBaseOcc p := by
  have hOk : SegsOk p (swSegs cfg files) := by
    simp only [swSegs]
    refine segsOk_append (segsOk_append (segsOk_append (segsOk_append
      (segsOk_append (segsOk_append ?_ ?_) ?_) ?_) ?_) ?_) ?_
    · exact SegsOk.lit _ _ (hNS _ (by simp [c1Lits]))
        (SegsOk.fld _ _ hname.1 hname.2 (SegsOk.lit _ _ (hNS _ (by simp [c1Lits]))
        (SegsOk.fld _ _ hcs.1 hcs.2 (SegsOk.lit _ _ (hNS _ (by simp [c1Lits]))
        (SegsOk.fld _ _ hfold.1 hfold.2 (SegsOk.lit _ _ (hNS _ (by simp [c1Lits]))
        (SegsOk.fld _ _ hrep.1 hrep.2 (SegsOk.lit _ _ (hNS _ (by simp [c1Lits]))
        (SegsOk.fld _ _ hfold.1 hfold.2 (SegsOk.lit _ _ (hNS _ (by simp [c1Lits]))
        (SegsOk.lit _ _ (hNS _ (by simp [c1Lits])) SegsOk.nil)))))))))))
    · exact segsOk_if_off _ _ hstart (hNS _ (by simp [c1Lits]))
    · exact SegsOk.lit _ _ (hNS _ (by simp [c1Lits])) SegsOk.nil
    · exact segsOk_jsonArr _ (hNS _ (by simp [c1Lits])) (hNS _ (by simp [c1Lits]))
        (hNS _ (by simp [c1Lits])) (hNS _ (by simp [c1Lits])) hurls
    · exact SegsOk.lit _ _ (hNS _ (by simp [c1Lits]))
        (SegsOk.fld _ _ hname.1 hname.2 (SegsOk.lit _ _ (hNS _ (by simp [c1Lits]))
        (SegsOk.fld _ _ hrep.1 hrep.2 (SegsOk.lit _ _ (hNS _ (by simp [c1Lits]))
        (SegsOk.lit _ _ hbody (SegsOk.lit _ _ (hNS _ (by simp [c1Lits]))
        SegsOk.nil))))))
    · exact segsOk_if_notif _ _ (segsOk_notif _ hname hstart
        (hNS _ (by simp [c1Lits])) (hNS _ (by simp [c1Lits]))
        (hNS _ (by simp [c1Lits])) (hNS _ (by simp [c1Lits]))
        (hNS _ (by simp [c1Lits])) (hNS _ (by simp [c1Lits])))
    · exact SegsOk.lit _ _ (hNS _ (by simp [c1Lits]))
        (SegsOk.fld _ _ hname.1 hname.2 (SegsOk.lit _ _ (hNS _ (by simp [c1Lits]))
        (SegsOk.fld _ _ hscope.1 hscope.2 (SegsOk.lit _ _ (hNS _ (by simp [c1Lits]))
        (SegsOk.fld _ _ hrep.1 hrep.2 (SegsOk.lit _ _ (hNS _ (by simp [c1Lits]))
        SegsOk.nil))))))
  have hlit : litOcc p (swSegs cfg files) =
      occL p (strategyLookup cfg).data + swBaseOcc p := by
    simp only [swSegs]
    rw [litOcc_append, litOcc_append, litOcc_append, litOcc_append,
      litOcc_append, litOcc_append]
    rw [litOcc_if_off _ _ (hzero _ (by simp [c1Side]))]
    rw [litOcc_jsonArr _ (hzero _ (by simp [c1Side])) (hzero _ (by simp [c1Side]))
      (hzero _ (by simp [c1Side])) (hzero _ (by simp [c1Side]))]
    rw [litOcc_if_notif _ _ (litOcc_notif _ (hzero _ (by simp [c1Side]))
      (hzero _ (by simp [c1Side])) (hzero _ (by simp [c1Side]))
      (hzero _ (by simp [c1Side])) (hzero _ (by simp [c1Side]))
      (hzero _ (by simp [c1Side])))]
    simp only [litOcc, swBaseOcc]
    omega
  show occL p (catData (swSegs cfg files)) = _
  rw [occL_catData hp hOk, hlit]

/-- The generated service worker splits around the strategy body: the body
is inserted verbatim between the fetch-listener opening (`swT_l10`, which
ends with the registration text) and its closing brace (`swT_l11`). -/
theorem sw_decomp (cfg : PwaConfig) (files : List FileInfo) :
    ∃ pre post, (generateServiceWorker cfg files).data =
      pre ++ swT_l10.data ++ (strategyLookup cfg).data ++ swT_l11.data ++ post := by
  refine ⟨catData ([Seg.lit swT_l1, Seg.fld cfg.name, Seg.lit swT_l2,
      Seg.fld cfg.cacheStrategy, Seg.lit swT_l3, Seg.fld cfg.folderName,
      Seg.lit swT_l4, Seg.fld (Nat.repr (urlsToCache cfg files).length),
      Seg.lit swT_l5, Seg.fld cfg.folderName, Seg.lit "-v1", Seg.lit swT_l6] ++
      (if cfg.enableOffline then [Seg.fld cfg.startUrl, Seg.lit "offline.html"]
        else []) ++ [Seg.lit swT_l7] ++ jsonArrSegs (urlsToCache cfg files) ++
      [Seg.lit swT_l8, Seg.fld cfg.name, Seg.lit swT_l9,
        Seg.fld (Nat.repr (urlsToCache cfg files).length)]),
    catData ((if cfg.enableNotifications then notifSegs cfg else []) ++
      [Seg.lit swT_l12, Seg.fld cfg.name, Seg.lit swT_l13, Seg.fld cfg.scope,
        Seg.lit swT_l14, Seg.fld (Nat.repr (urlsToCache cfg files).length),
        Seg.lit swT_l15]), ?_⟩
  show catData (swSegs cfg files) = _
  simp only [swSegs, List.append_eq, catData_append, catData, Seg.str,
    List.append_assoc, List.append_nil, List.nil_append]

set_option maxRecDepth 10000 in
set_option maxHeartbeats 2000000 in
/-- C1: for each of the three supported cache strategies the generated
service worker contains exactly one fetch-listener registration, the
selected strategy's body sits verbatim inside it, and the marker text of
each unselected strategy's fetch logic does not occur anywhere in the
output, while the selected strategy's marker occurs exactly once.  The
cleanliness hypotheses say the interpolated configuration fields do not
themselves contain the counted markers (or dangerous fragments of them)
and survive JSON escaping unchanged. -/
theorem serviceWorker_fetch_block (cfg : PwaConfig) (files : List FileInfo)
    (hstrat : cfg.cacheStrategy = "cache-first" ∨
      cfg.cacheStrategy = "network-first" ∨
      cfg.cacheStrategy = "stale-while-revalidate")
    (hname : ∀ p ∈ c1Pats, Clean p cfg.name)
    (hfold : ∀ p ∈ c1Pats, Clean p cfg.folderName)
    (hstart : ∀ p ∈ c1Pats, Clean p cfg.startUrl)
    (hscope : ∀ p ∈ c1Pats, Clean p cfg.scope)
    (hpaths : ∀ f ∈ files, ∀ p ∈ c1Pats, Clean p f.path)
    (hescS : escSafe cfg.startUrl)
    (hescP : ∀ f ∈ files, escSafe f.path) :
    occL pFetch (generateServiceWorker cfg files).data = 1 ∧
    (∃ pre post, (generateServiceWorker cfg files).data =
      pre ++ swT_l10.data ++ (strategyLookup cfg).data ++ swT_l11.data ++ post) ∧
    (cfg.cacheStrategy = "cache-first" →
      strategyLookup cfg = generateCacheFirstStrategy cfg ∧
      occL pCF (generateServiceWorker cfg files).data = 1 ∧
      occL pNF (generateServiceWorker cfg files).data = 0 ∧
      occL pSWR (generateServiceWorker cfg files).data = 0) ∧
    (cfg.cacheStrategy = "network-first" →
      strategyLookup cfg = generateNetworkFirstStrategy cfg ∧
      occL pNF (generateServiceWorker cfg files).data = 1 ∧
      occL pCF (generateServiceWorker cfg files).data = 0 ∧
      occL pSWR (generateServiceWorker cfg files).data = 0) ∧
    (cfg.cacheStrategy = "stale-while-revalidate" →
      strategyLookup cfg = generateStaleWhileRevalidateStrategy cfg ∧
      occL pSWR (generateServiceWorker cfg files).data = 1 ∧
      occL pCF (generateServiceWorker cfg files).data = 0 ∧
      occL pNF (generateServiceWorker cfg files).data = 0) := by
  have hcs : ∀ p ∈ c1Pats, Clean p cfg.cacheStrategy := by
    intro p hp
    simp only [c1Pats, List.mem_cons, List.not_mem_nil, or_false] at hp
    rcases hp with rfl | rfl | rfl | rfl <;>
      rcases hstrat with h | h | h <;> rw [h] <;> decide
  have hlook3 :
      (cfg.cacheStrategy = "cache-first" →
        strategyLookup cfg = generateCacheFirstStrategy cfg) ∧
      (cfg.cacheStrategy = "network-first" →
        strategyLookup cfg = generateNetworkFirstStrategy cfg) ∧
      (cfg.cacheStrategy = "stale-while-revalidate" →
        strategyLookup cfg = generateStaleWhileRevalidateStrategy cfg) := by
    refine ⟨fun h => ?_, fun h => ?_, fun h => ?_⟩ <;> simp [strategyLookup, h]
  have hbody : ∀ p ∈ c1Pats, NS p (strategyLookup cfg).data := by
    intro p hp
    simp only [c1Pats, List.mem_cons, List.not_mem_nil, or_false] at hp
    rcases hp with rfl | rfl | rfl | rfl <;>
      rcases hstrat with h | h | h <;>
      [rw [hlook3.1 h]; rw [hlook3.2.1 h]; rw [hlook3.2.2 h];
       rw [hlook3.1 h]; rw [hlook3.2.1 h]; rw [hlook3.2.2 h];
       rw [hlook3.1 h]; rw [hlook3.2.1 h]; rw [hlook3.2.2 h];
       rw [hlook3.1 h]; rw [hlook3.2.1 h]; rw [hlook3.2.2 h]] <;>
      simp only [generateCacheFirstStrategy, generateNetworkFirstStrategy,
        generateStaleWhileRevalidateStrategy] <;>
      cases hoff : cfg.enableOffline <;> decide
  have hmF : occL pFetch (generateServiceWorker cfg files).data =
      occL pFetch (strategyLookup cfg).data + swBaseOcc pFetch :=
    occ_sw_master (by decide) cfg files (hname pFetch (by simp [c1Pats]))
      (hfold pFetch (by simp [c1Pats])) (hstart pFetch (by simp [c1Pats]))
      (hscope pFetch (by simp [c1Pats])) (hcs pFetch (by simp [c1Pats]))
      (clean_of_digits (show pFetch.head? = some 'a' from rfl) (by decide) _
        (repr_digits _))
      (clean_urls cfg files (hstart pFetch (by simp [c1Pats]))
        (fun f hf => hpaths f hf pFetch (by simp [c1Pats])) (by decide)
        (by decide) (by decide) hescS hescP (by decide) (by decide) (by decide))
      (by decide) (by decide) (hbody pFetch (by simp [c1Pats]))
  have hmC : occL pCF (generateServiceWorker cfg files).data =
      occL pCF (strategyLookup cfg).data + swBaseOcc pCF :=
    occ_sw_master (by decide) cfg files (hname pCF (by simp [c1Pats]))
      (hfold pCF (by simp [c1Pats])) (hstart pCF (by simp [c1Pats]))
      (hscope pCF (by simp [c1Pats])) (hcs pCF (by simp [c1Pats]))
      (clean_of_digits (show pCF.head? = some 'C' from rfl) (by decide) _
        (repr_digits _))
      (clean_urls cfg files (hstart pCF (by simp [c1Pats]))
        (fun f hf => hpaths f hf pCF (by simp [c1Pats])) (by decide)
        (by decide) (by decide) hescS hescP (by decide) (by decide) (by decide))
      (by decide) (by decide) (hbody pCF (by simp [c1Pats]))
  have hmN : occL pNF (generateServiceWorker cfg files).data =
      occL pNF (strategyLookup cfg).data + swBaseOcc pNF :=
    occ_sw_master (by decide) cfg files (hname pNF (by simp [c1Pats]))
      (hfold pNF (by simp [c1Pats])) (hstart pNF (by simp [c1Pats]))
      (hscope pNF (by simp [c1Pats])) (hcs pNF (by simp [c1Pats]))
      (clean_of_digits (show pNF.head? = some 'N' from rfl) (by decide) _
        (repr_digits _))
      (clean_urls cfg files (hstart pNF (by simp [c1Pats]))
        (fun f hf => hpaths f hf pNF (by simp [c1Pats])) (by decide)
        (by decide) (by decide) hescS hescP (by decide) (by decide) (by decide))
      (by decide) (by decide) (hbody pNF (by simp [c1Pats]))
  have hmS : occL pSWR (generateServiceWorker cfg files).data =
      occL pSWR (strategyLookup cfg).data + swBaseOcc pSWR :=
    occ_sw_master (by decide) cfg files (hname pSWR (by simp [c1Pats]))
      (hfold pSWR (by simp [c1Pats])) (hstart pSWR (by simp [c1Pats]))
      (hscope pSWR (by simp [c1Pats])) (hcs pSWR (by simp [c1Pats]))
      (clean_of_digits (show pSWR.head? = some 'S' from rfl) (by decide) _
        (repr_digits _))
      (clean_urls cfg files (hstart pSWR (by simp [c1Pats]))
        (fun f hf => hpaths f hf pSWR (by simp [c1Pats])) (by decide)
        (by decide) (by decide) hescS hescP (by decide) (by decide) (by decide))
      (by decide) (by decide) (hbody pSWR (by simp [c1Pats]))
  have hb1 : swBaseOcc pFetch = 1 := by decide
  have hb2 : swBaseOcc pCF = 0 := by decide
  have hb3 : swBaseOcc pNF = 0 := by decide
  have hb4 : swBaseOcc pSWR = 0 := by decide
  refine ⟨?_, sw_decomp cfg files, ?_, ?_, ?_⟩
  · rw [hmF]
    have h0 : occL pFetch (strategyLookup cfg).data = 0 := by
      rcases hstrat with h | h | h
      · rw [hlook3.1 h]
        simp only [generateCacheFirstStrategy]
        cases hoff : cfg.enableOffline <;> decide
      · rw [hlook3.2.1 h]
        simp only [generateNetworkFirstStrategy]
        cases hoff : cfg.enableOffline <;> decide
      · rw [hlook3.2.2 h]
        simp only [generateStaleWhileRevalidateStrategy]
        cases hoff : cfg.enableOffline <;> decide
    rw [h0, hb1]
  · intro h
    refine ⟨hlook3.1 h, ?_, ?_, ?_⟩
    · rw [hmC, hlook3.1 h, hb2]
      simp only [generateCacheFirstStrategy]
      cases hoff : cfg.enableOffline <;> decide
    · rw [hmN, hlook3.1 h, hb3]
      simp only [generateCacheFirstStrategy]
      cases hoff : cfg.enableOffline <;> decide
    · rw [hmS, hlook3.1 h, hb4]
      simp only [generateCacheFirstStrategy]
      cases hoff : cfg.enableOffline <;> decide
  · intro h
    refine ⟨hlook3.2.1 h, ?_, ?_, ?_⟩
    · rw [hmN, hlook3.2.1 h, hb3]
      simp only [generateNetworkFirstStrategy]
      cases hoff : cfg.enableOffline <;> decide
    · rw [hmC, hlook3.2.1 h, hb2]
      simp only [generateNetworkFirstStrategy]
      cases hoff : cfg.enableOffline <;> decide
    · rw [hmS, hlook3.2.1 h, hb4]
      simp only [generateNetworkFirstStrategy]
      cases hoff : cfg.enableOffline <;> decide
  · intro h
    refine ⟨hlook3.2.2 h, ?_, ?_, ?_⟩
    · rw [hmS, hlook3.2.2 h, hb4]
      simp only [generateStaleWhileRevalidateStrategy]
      cases hoff : cfg.enableOffline <;> decide
    · rw [hmC, hlook3.2.2 h, hb2]
      simp only [generateStaleWhileRevalidateStrategy]
      cases hoff : cfg.enableOffline <;> decide
    · rw [hmN, hlook3.2.2 h, hb3]
      simp only [generateStaleWhileRevalidateStrategy]
      cases hoff : cfg.enableOffline <;> decide

/-- Concrete configuration for exercising the fetch-block theorem. -/
def c1cfg : PwaConfig :=
  { name := "Demo", shortName := "Demo", appId := "demo", folderName := "demo",
    description := "d", themeColor := "#2196F3", backgroundColor := "#ffffff",
    startUrl := "/demo/", scope := "/demo/", display := "standalone",
    orientation := "portrait-primary", cacheStrategy := "cache-first",
    enableOffline := true, enableNotifications := true }

/-- Concrete file list for exercising the fetch-block theorem. -/
def c1files : List FileInfo :=
  [{ path := "index.html", size := 5, ftype := "text/html",
     name := "index.html", blob := "<html>" }]

set_option maxRecDepth 10000 in
set_option maxHeartbeats 2000000 in
theorem serviceWorker_fetch_block_witness :
    c1cfg.cacheStrategy = "cache-first" ∧
    occL pFetch (generateServiceWorker c1cfg c1files).data = 1 :=
  ⟨rfl, (serviceWorker_fetch_block c1cfg c1files (Or.inl rfl) (by decide)
    (by decide) (by decide) (by decide) (by decide) (by decide) (by decide)).1⟩

/-- If `a` is clean for the (lowercase) pattern and `m` matches it
case-insensitively, the first case-insensitive occurrence in
`a ++ m ++ b` is exactly `m`. -/
theorem splitFirstCI_spec {pat : List Char} (hp : pat ≠ []) :
    ∀ (a m b : List Char), m.map Char.toLower = pat →
    occL pat (a.map Char.toLower) = 0 → NS pat (a.map Char.toLower) →
    splitFirstCI pat (a ++ m ++ b) = some (a, m, b) := by
  intro a
  induction a with
  | nil =>
    intro m b hm h0 hns
    cases m with
    | nil => exact absurd hm.symm hp
    | cons c t =>
      have hml : (c :: t).length = pat.length := by
        rw [← hm, List.length_map]
      rw [List.nil_append, List.cons_append, splitFirstCI]
      have htake : (c :: (t ++ b)).take pat.length = c :: t := by
        rw [← List.cons_append, ← hml]
        exact List.take_left (c :: t) b
      have hdrop : (c :: (t ++ b)).drop pat.length = b := by
        rw [← List.cons_append, ← hml]
        exact List.drop_left (c :: t) b
      rw [if_pos (by rw [htake, hm]), htake, hdrop]
  | cons x a ih =>
    intro m b hm h0 hns
    have hstep : occL pat ((x :: a).map Char.toLower) =
        (if pat.isPrefixOf ((x :: a).map Char.toLower) then 1 else 0) +
          occL pat (a.map Char.toLower) := rfl
    have h0' : occL pat (a.map Char.toLower) = 0 := by
      rw [hstep] at h0
      omega
    have hns' : NS pat (a.map Char.toLower) := by
      intro z hz hne hlt
      refine hns z ?_ hne hlt
      have h1 : z <:+ Char.toLower x :: a.map Char.toLower :=
        hz.trans (List.suffix_cons _ _)
      simpa [List.map_cons] using h1
    have hcond : ¬ ((((x :: (a ++ m ++ b)).take pat.length).map Char.toLower) = pat) := by
      intro heq
      have heq' : ((x :: (a ++ m ++ b)).map Char.toLower).take pat.length = pat := by
        rw [← List.map_take]
        exact heq
      have hL : (x :: (a ++ m ++ b)).map Char.toLower =
          (x :: a).map Char.toLower ++ (m.map Char.toLower ++ b.map Char.toLower) := by
        simp [List.map_cons, List.map_append]
      rw [hL] at heq'
      by_cases hlen : pat.length ≤ ((x :: a).map Char.toLower).length
      · have htk : ((x :: a).map Char.toLower ++
            (m.map Char.toLower ++ b.map Char.toLower)).take pat.length =
            ((x :: a).map Char.toLower).take pat.length :=
          List.take_append_of_le_length hlen
        rw [htk] at heq'
        have hpfx : pat <+: (x :: a).map Char.toLower :=
          List.prefix_iff_eq_take.mpr heq'.symm
        have hne0 : occL pat ((x :: a).map Char.toLower) ≠ 0 := by
          rw [hstep, if_pos (List.isPrefixOf_iff_prefix.mpr hpfx)]
          omega
        exact hne0 h0
      · push_neg at hlen
        have hAne : (x :: a).map Char.toLower ≠ [] := by simp
        have hApfx : (x :: a).map Char.toLower <+: pat := by
          have h1 : ((x :: a).map Char.toLower ++
              (m.map Char.toLower ++ b.map Char.toLower)).take
                ((x :: a).map Char.toLower).length = (x :: a).map Char.toLower :=
            List.take_left _ _
          have h2 : ((x :: a).map Char.toLower ++
              (m.map Char.toLower ++ b.map Char.toLower)).take
                ((x :: a).map Char.toLower).length =
              (((x :: a).map Char.toLower ++
                (m.map Char.toLower ++ b.map Char.toLower)).take pat.length).take
                ((x :: a).map Char.toLower).length := by
            rw [List.take_take, Nat.min_eq_left (le_of_lt hlen)]
          rw [h2, heq'] at h1
          exact List.prefix_iff_eq_take.mpr h1.symm
        have hfalse := hns ((x :: a).map Char.toLower) (List.suffix_refl _) hAne hlen
        rw [List.isPrefixOf_iff_prefix.mpr hApfx] at hfalse
        exact Bool.true_eq_false.mp hfalse
    rw [show (x :: a) ++ m ++ b = x :: (a ++ m ++ b) from rfl]
    rw [splitFirstCI, if_neg hcond, ih m b hm h0' hns']

/-- Lowercasing fixes decimal digits. -/
theorem toLower_digit (c : Char) (h : c.isDigit = true) : c.toLower = c := by
  simp only [Char.isDigit, Bool.and_eq_true, decide_eq_true_eq] at h
  obtain ⟨h1, h2⟩ := h
  have h1' : (48 : Nat) ≤ c.val.toNat := UInt32.le_def.mp h1
  have h2' : c.val.toNat ≤ (57 : Nat) := UInt32.le_def.mp h2
  simp only [Char.toLower, Char.toNat]
  rw [if_neg]
  rintro ⟨ha, -⟩
  omega

/-- Lowercasing a decimal `Nat.repr` is the identity. -/
theorem lowRepr_eq (mm : Nat) :
    (Nat.repr mm).data.map Char.toLower = (Nat.repr mm).data := by
  have h : ∀ c ∈ (Nat.repr mm).data, Char.toLower c = id c :=
    fun c hc => toLower_digit c (repr_digits mm c hc)
  rw [List.map_congr_left h, List.map_id]

/-- A well-formed segment list renders to a string with no dangerous
suffix for the pattern. -/
theorem segsOk_ns {p : List Char} {L : List Seg} (h : SegsOk p L) :
    NS p (catData L) := by
  induction h with
  | nil => intro z hz hne hlt; exact absurd (List.suffix_nil.mp hz) hne
  | lit s rest hns _ ih => exact ns_append_ns hns ih
  | fld v rest h1 h2 _ ih => exact ns_append_ns h2 ih

/-- Lowercase a segment. -/
def lowSeg : Seg → Seg
  | .lit s => .lit (lowerS s)
  | .fld s => .fld (lowerS s)

theorem catData_map_lowSeg (L : List Seg) :
    catData (L.map lowSeg) = (catData L).map Char.toLower := by
  induction L with
  | nil => rfl
  | cons s L ih =>
    cases s with
    | lit t =>
      show (lowerS t).data ++ catData (L.map lowSeg) = (t.data ++ catData L).map Char.toLower
      rw [List.map_append, ih]
      rfl
    | fld t =>
      show (lowerS t).data ++ catData (L.map lowSeg) = (t.data ++ catData L).map Char.toLower
      rw [List.map_append, ih]
      rfl

/-- The closing-body pattern searched by the registration step. -/
def pBody : List Char := "</body>".data

/-- Marker comment unique to the injected registration block (lowercase). -/
def pMark : List Char := "pwa service worker registration".data

/-- The thirteen registration-template literals. -/
def regLits : List String :=
  [reg_l1, reg_l2, reg_l3, reg_l4, reg_l5, reg_l6, reg_l7, reg_l8, reg_l9,
   reg_l10, reg_l11, reg_l12, reg_l13]

/-- Occurrences of `p` in the lowered registration literals. -/
def regBaseOcc (p : List Char) : Nat :=
  occL p (lowerS reg_l1).data + occL p (lowerS reg_l2).data +
  occL p (lowerS reg_l3).data + occL p (lowerS reg_l4).data +
  occL p (lowerS reg_l5).data + occL p (lowerS reg_l6).data +
  occL p (lowerS reg_l7).data + occL p (lowerS reg_l8).data +
  occL p (lowerS reg_l9).data + occL p (lowerS reg_l10).data +
  occL p (lowerS reg_l11).data + occL p (lowerS reg_l12).data +
  occL p (lowerS reg_l13).data

theorem litOcc_regLow (p : List Char) (cfg : PwaConfig) (n : Nat) :
    litOcc p ((regSegs cfg n).map lowSeg) = regBaseOcc p := by
  simp only [regSegs, List.map_cons, List.map_nil, lowSeg, litOcc, regBaseOcc]
  omega

/-- Occurrence/suffix analysis of the lowered registration text. -/
theorem reg_low_analysis {p : List Char} (hp : p ≠ []) (cfg : PwaConfig) (n : Nat)
    (hname : occL p (cfg.name.data.map Char.toLower) = 0 ∧
      NS p (cfg.name.data.map Char.toLower))
    (hfold : occL p (cfg.folderName.data.map Char.toLower) = 0 ∧
      NS p (cfg.folderName.data.map Char.toLower))
    (happ : occL p (cfg.appId.data.map Char.toLower) = 0 ∧
      NS p (cfg.appId.data.map Char.toLower))
    (hstart : occL p (cfg.startUrl.data.map Char.toLower) = 0 ∧
      NS p (cfg.startUrl.data.map Char.toLower))
    (hscope : occL p (cfg.scope.data.map Char.toLower) = 0 ∧
      NS p (cfg.scope.data.map Char.toLower))
    (hpd : ∀ c0, p.head? = some c0 → c0.isDigit = false)
    (hlits : ∀ s ∈ regLits, NS p (lowerS s).data) :
    occL p ((swRegistration cfg n).data.map Char.toLower) = regBaseOcc p ∧
    NS p ((swRegistration cfg n).data.map Char.toLower) := by
  have hrep : ∀ mm : Nat, occL p ((Nat.repr mm).data.map Char.toLower) = 0 ∧
      NS p ((Nat.repr mm).data.map Char.toLower) := by
    intro mm
    rw [lowRepr_eq]
    obtain ⟨c0, t, rfl⟩ := List.exists_cons_of_ne_nil hp
    exact clean_of_digits (show (c0 :: t).head? = some c0 from rfl)
      (hpd c0 rfl) _ (repr_digits mm)
  have hOk : SegsOk p ((regSegs cfg n).map lowSeg) := by
    simp only [regSegs, List.map_cons, List.map_nil, lowSeg]
    exact SegsOk.lit _ _ (hlits _ (by simp [regLits]))
      (SegsOk.fld _ _ hname.1 hname.2 (SegsOk.lit _ _ (hlits _ (by simp [regLits]))
      (SegsOk.fld _ _ hfold.1 hfold.2 (SegsOk.lit _ _ (hlits _ (by simp [regLits]))
      (SegsOk.fld _ _ (hrep (n + 3)).1 (hrep (n + 3)).2
      (SegsOk.lit _ _ (hlits _ (by simp [regLits]))
      (SegsOk.fld _ _ hname.1 hname.2 (SegsOk.lit _ _ (hlits _ (by simp [regLits]))
      (SegsOk.fld _ _ happ.1 happ.2 (SegsOk.lit _ _ (hlits _ (by simp [regLits]))
      (SegsOk.fld _ _ hfold.1 hfold.2 (SegsOk.lit _ _ (hlits _ (by simp [regLits]))
      (SegsOk.fld _ _ hname.1 hname.2 (SegsOk.lit _ _ (hlits _ (by simp [regLits]))
      (SegsOk.fld _ _ happ.1 happ.2 (SegsOk.lit _ _ (hlits _ (by simp [regLits]))
      (SegsOk.fld _ _ hstart.1 hstart.2 (SegsOk.lit _ _ (hlits _ (by simp [regLits]))
      (SegsOk.fld _ _ hscope.1 hscope.2 (SegsOk.lit _ _ (hlits _ (by simp [regLits]))
      (SegsOk.fld _ _ hfold.1 hfold.2 (SegsOk.lit _ _ (hlits _ (by simp [regLits]))
      (SegsOk.fld _ _ (hrep n).1 (hrep n).2
      (SegsOk.lit _ _ (hlits _ (by simp [regLits]))
      SegsOk.nil))))))))))))))))))))))))
  have hdata : (swRegistration cfg n).data.map Char.toLower =
      catData ((regSegs cfg n).map lowSeg) := by
    rw [catData_map_lowSeg]
    rfl
  constructor
  · rw [hdata, occL_catData hp hOk, litOcc_regLow]
  · rw [hdata]
    exact segsOk_ns hOk

theorem occ_append_ns (p x y : List Char) (hx : NS p x) :
    occL p (x ++ y) = occL p x + occL p y := by
  rw [occL_append, crossL_eq_zero_ns _ hx]
  omega

/-- A case-insensitive guard holds as soon as it holds in a prefix. -/
theorem containsCI_of_left {s g : String} {a rest : List Char}
    (hs : s.data = a ++ rest)
    (h : isInfixL (lowerS g).data (a.map Char.toLower) = true) :
    containsCI s g = true := by
  unfold containsCI
  apply isInfixL_iff.mpr
  have hdata : (lowerS s).data = a.map Char.toLower ++ rest.map Char.toLower := by
    show s.data.map Char.toLower = _
    rw [hs, List.map_append]
  rw [hdata]
  exact (isInfixL_iff.mp h).trans (List.prefix_append _ _).isInfix

/-- Replacing the first case-insensitive match, computed. -/
theorem replaceFirstCI_spec {pat repl s : String} {a m b : List Char}
    (hs : s.data = a ++ m ++ b)
    (hpatL : (pat.data.map Char.toLower) ≠ [])
    (hm : m.map Char.toLower = pat.data.map Char.toLower)
    (h0 : occL (pat.data.map Char.toLower) (a.map Char.toLower) = 0)
    (hns : NS (pat.data.map Char.toLower) (a.map Char.toLower)) :
    (replaceFirstCI pat repl s).data = a ++ repl.data ++ b := by
  unfold replaceFirstCI
  rw [hs, splitFirstCI_spec hpatL a m b hm h0 hns]

/-- The unguarded registration step, computed on a document with a clean
prefix before its first `</body>`. -/
theorem regStep_spec (cfg : PwaConfig) (n : Nat) {s : String} {a b : List Char}
    (hs : s.data = a ++ "</body>".data ++ b)
    (h0 : occL pBody (a.map Char.toLower) = 0)
    (hns : NS pBody (a.map Char.toLower)) :
    (regStep cfg n s).data =
      a ++ (swRegistration cfg n).data ++ "\n</body>".data ++ b := by
  unfold regStep
  have h1 : (replaceFirstCI "</body>" (swRegistration cfg n ++ "\n</body>") s).data =
      a ++ (swRegistration cfg n ++ "\n</body>").data ++ b :=
    replaceFirstCI_spec hs (by decide) (by decide) h0 hns
  rw [h1, String.data_append]
  simp [List.append_assoc]

set_option maxRecDepth 12000 in
set_option maxHeartbeats 1000000 in
/-- C6: each guarded insertion of `injectPWACode` (viewport, theme-color,
manifest link, Apple meta) is skipped when its guard substring is already
present case-insensitively; the service-worker registration block has no
guard and is spliced in before the first closing body tag, so running
`injectPWACode` twice (feeding the first output back in) yields two copies
of the registration block: the output decomposes with the block twice, and
the lowercase registration marker, absent from the input, occurs exactly
twice.  The hypotheses describe a document with a single `</body>` whose
guard substrings sit before it and whose configuration fields do not
contain the counted patterns or dangerous fragments of them. -/
theorem injectPWACode_reg_duplication (cfg : PwaConfig) (n : Nat) (html : String)
    (pre post : List Char)
    (hhtml : html.data = pre ++ "</body>".data ++ post)
    (hpreB0 : occL pBody (pre.map Char.toLower) = 0)
    (hpreBns : NS pBody (pre.map Char.toLower))
    (hpreM0 : occL pMark (pre.map Char.toLower) = 0)
    (hpreMns : NS pMark (pre.map Char.toLower))
    (hpostM0 : occL pMark (post.map Char.toLower) = 0)
    (hv : isInfixL (lowerS "viewport").data (pre.map Char.toLower) = true)
    (hth : isInfixL (lowerS "theme-color").data (pre.map Char.toLower) = true)
    (hmn : isInfixL (lowerS "manifest").data (pre.map Char.toLower) = true)
    (hap : isInfixL (lowerS "apple-mobile-web-app").data (pre.map Char.toLower) = true)
    (hfB : ∀ s ∈ [cfg.name, cfg.folderName, cfg.appId, cfg.startUrl, cfg.scope],
      (occL pBody (s.data.map Char.toLower) = 0 ∧
        NS pBody (s.data.map Char.toLower)) ∧
      (occL pMark (s.data.map Char.toLower) = 0 ∧
        NS pMark (s.data.map Char.toLower))) :
    (∀ d : String, containsCI d "viewport" = true → viewportStep d = d) ∧
    (∀ d : String, containsCI d "theme-color" = true → themeStep cfg d = d) ∧
    (∀ d : String, containsCI d "manifest" = true → manifestStep d = d) ∧
    (∀ d : String, containsCI d "apple-mobile-web-app" = true → appleStep cfg d = d) ∧
    (injectPWACode cfg n html).data =
      pre ++ (swRegistration cfg n).data ++ "\n</body>".data ++ post ∧
    (injectPWACode cfg n (injectPWACode cfg n html)).data =
      pre ++ (swRegistration cfg n).data ++ "\n".data ++
      (swRegistration cfg n).data ++ "\n</body>".data ++ post ∧
    occL pMark (html.data.map Char.toLower) = 0 ∧
    occL pMark ((injectPWACode cfg n (injectPWACode cfg n html)).data.map
      Char.toLower) = 2 := by
  have hvs : ∀ d : String, containsCI d "viewport" = true → viewportStep d = d :=
    fun d hd => by simp [viewportStep, hd]
  have hts : ∀ d : String, containsCI d "theme-color" = true → themeStep cfg d = d :=
    fun d hd => by simp [themeStep, hd]
  have hms : ∀ d : String, containsCI d "manifest" = true → manifestStep d = d :=
    fun d hd => by simp [manifestStep, hd]
  have has : ∀ d : String, containsCI d "apple-mobile-web-app" = true →
      appleStep cfg d = d :=
    fun d hd => by simp [appleStep, hd]
  have hregB : occL pBody ((swRegistration cfg n).data.map Char.toLower) =
      regBaseOcc pBody ∧ NS pBody ((swRegistration cfg n).data.map Char.toLower) :=
    reg_low_analysis (by decide) cfg n ((hfB _ (by simp)).1)
      ((hfB cfg.folderName (by simp)).1) ((hfB cfg.appId (by simp)).1)
      ((hfB cfg.startUrl (by simp)).1) ((hfB cfg.scope (by simp)).1)
      (fun c0 hc => by
        obtain rfl : '<' = c0 := Option.some.inj hc
        decide)
      (by decide)
  have hregM : occL pMark ((swRegistration cfg n).data.map Char.toLower) =
      regBaseOcc pMark ∧ NS pMark ((swRegistration cfg n).data.map Char.toLower) :=
    reg_low_analysis (by decide) cfg n ((hfB _ (by simp)).2)
      ((hfB cfg.folderName (by simp)).2) ((hfB cfg.appId (by simp)).2)
      ((hfB cfg.startUrl (by simp)).2) ((hfB cfg.scope (by simp)).2)
      (fun c0 hc => by
        obtain rfl : 'p' = c0 := Option.some.inj hc
        decide)
      (by decide)
  have hbase0 : regBaseOcc pBody = 0 := by decide
  have hbase1 : regBaseOcc pMark = 1 := by decide
  have hhtml' : html.data = pre ++ ("</body>".data ++ post) := by
    rw [hhtml, List.append_assoc]
  have hg1 : containsCI html "viewport" = true := containsCI_of_left hhtml' hv
  have hg2 : containsCI html "theme-color" = true := containsCI_of_left hhtml' hth
  have hg3 : containsCI html "manifest" = true := containsCI_of_left hhtml' hmn
  have hg4 : containsCI html "apple-mobile-web-app" = true :=
    containsCI_of_left hhtml' hap
  have hout1 : (injectPWACode cfg n html).data =
      pre ++ (swRegistration cfg n).data ++ "\n</body>".data ++ post := by
    show (regStep cfg n (appleStep cfg (manifestStep (themeStep cfg
      (viewportStep html))))).data = _
    rw [hvs html hg1, hts html hg2, hms html hg3, has html hg4]
    exact regStep_spec cfg n hhtml hpreB0 hpreBns
  have hout1' : (injectPWACode cfg n html).data =
      pre ++ ((swRegistration cfg n).data ++ ("\n</body>".data ++ post)) := by
    rw [hout1]
    simp [List.append_assoc]
  have hout1'' : (injectPWACode cfg n html).data =
      (pre ++ (swRegistration cfg n).data ++ "\n".data) ++ "</body>".data ++ post := by
    rw [hout1]
    have hnl : ("\n</body>" : String).data = "\n".data ++ "</body>".data := rfl
    rw [hnl]
    simp [List.append_assoc]
  have hg1' : containsCI (injectPWACode cfg n html) "viewport" = true :=
    containsCI_of_left hout1' hv
  have hg2' : containsCI (injectPWACode cfg n html) "theme-color" = true :=
    containsCI_of_left hout1' hth
  have hg3' : containsCI (injectPWACode cfg n html) "manifest" = true :=
    containsCI_of_left hout1' hmn
  have hg4' : containsCI (injectPWACode cfg n html) "apple-mobile-web-app" = true :=
    containsCI_of_left hout1' hap
  have ha2map : (pre ++ (swRegistration cfg n).data ++ "\n".data).map Char.toLower =
      pre.map Char.toLower ++ (swRegistration cfg n).data.map Char.toLower ++
      "\n".data.map Char.toLower := by
    rw [List.map_append, List.map_append]
  have ha2Bns : NS pBody ((pre ++ (swRegistration cfg n).data ++ "\n".data).map
      Char.toLower) := by
    rw [ha2map]
    exact ns_append_ns (ns_append_ns hpreBns hregB.2) (by decide)
  have ha2B0 : occL pBody ((pre ++ (swRegistration cfg n).data ++ "\n".data).map
      Char.toLower) = 0 := by
    rw [ha2map, occ_append_ns _ _ _ (ns_append_ns hpreBns hregB.2),
      occ_append_ns _ _ _ hpreBns, hpreB0, hregB.1, hbase0]
    decide
  have hout2 : (injectPWACode cfg n (injectPWACode cfg n html)).data =
      pre ++ (swRegistration cfg n).data ++ "\n".data ++
      (swRegistration cfg n).data ++ "\n</body>".data ++ post := by
    show (regStep cfg n (appleStep cfg (manifestStep (themeStep cfg
      (viewportStep (injectPWACode cfg n html)))))).data = _
    rw [hvs _ hg1', hts _ hg2', hms _ hg3', has _ hg4']
    rw [regStep_spec cfg n hout1'' ha2B0 ha2Bns]
  have hhtml_occ : occL pMark (html.data.map Char.toLower) = 0 := by
    rw [hhtml, List.map_append, List.map_append,
      occ_append_ns _ _ _ (ns_append_ns hpreMns (by decide)),
      occ_append_ns _ _ _ hpreMns, hpreM0, hpostM0]
    decide
  refine ⟨hvs, hts, hms, has, hout1, hout2, hhtml_occ, ?_⟩
  rw [hout2]
  have hmapall : (pre ++ (swRegistration cfg n).data ++ "\n".data ++
      (swRegistration cfg n).data ++ "\n</body>".data ++ post).map Char.toLower =
      pre.map Char.toLower ++ (swRegistration cfg n).data.map Char.toLower ++
      "\n".data ++ (swRegistration cfg n).data.map Char.toLower ++
      "\n</body>".data ++ post.map Char.toLower := by
    simp only [List.map_append]
    rfl
  rw [hmapall]
  have n1 : NS pMark ("\n" : String).data := by decide
  have n2 : NS pMark ("\n</body>" : String).data := by decide
  rw [occ_append_ns _ _ _ (ns_append_ns (ns_append_ns (ns_append_ns
      (ns_append_ns hpreMns hregM.2) n1) hregM.2) n2),
    occ_append_ns _ _ _ (ns_append_ns (ns_append_ns
      (ns_append_ns hpreMns hregM.2) n1) hregM.2),
    occ_append_ns _ _ _ (ns_append_ns (ns_append_ns hpreMns hregM.2) n1),
    occ_append_ns _ _ _ (ns_append_ns hpreMns hregM.2),
    occ_append_ns _ _ _ hpreMns, hpreM0, hregM.1, hbase1, hpostM0]
  decide


/-- Concrete configuration for exercising the injection theorem. -/
def c6cfg : PwaConfig :=
  { name := "Demo", shortName := "Demo", appId := "demo-id",
    folderName := "demo", description := "d", themeColor := "#111111",
    backgroundColor := "#ffffff", startUrl := "/demo/", scope := "/demo/",
    display := "standalone", orientation := "portrait-primary",
    cacheStrategy := "cache-first", enableOffline := true,
    enableNotifications := true }

/-- Document prefix before `</body>` for the injection witness. -/
def c6pre : List Char :=
  ("<html><head><meta name=viewport><meta name=theme-color>" ++
   "<link rel=manifest><meta name=apple-mobile-web-app-capable>" ++
   "</head><body>hi").data

/-- Document suffix after `</body>` for the injection witness. -/
def c6post : List Char := "</html>".data

/-- The witness document. -/
def c6html : String :=
  "<html><head><meta name=viewport><meta name=theme-color>" ++
  "<link rel=manifest><meta name=apple-mobile-web-app-capable>" ++
  "</head><body>hi</body></html>"

set_option maxRecDepth 12000 in
set_option maxHeartbeats 1000000 in
theorem injectPWACode_reg_duplication_witness :
    c6html.data = c6pre ++ "</body>".data ++ c6post ∧
    occL pMark ((injectPWACode c6cfg 1 (injectPWACode c6cfg 1
      c6html)).data.map Char.toLower) = 2 :=
  ⟨by decide, (injectPWACode_reg_duplication c6cfg 1 c6html c6pre c6post
    (by decide) (by decide) (by decide) (by decide) (by decide) (by decide)
    (by decide) (by decide) (by decide) (by decide)
    (by decide)).2.2.2.2.2.2.2⟩

end Web2PWA
